import Mathlib

/-!
Shallow embedding of the `vfsh` interactive file browser (package
`internal/tui`, files `model.go`, `entry.go`, the preview pipeline and the
`VFSAdapter`), together with proofs about the claims of its specification.

Conventions of the embedding:
* Go strings are Lean `String`s; byte slices are `List Nat` (each element a
  byte value `< 256`).
* Go `int`/`int64` are Lean `Int`; counters that start at `0` and are only
  incremented (`previewGen`, `commandCounter`, `TerminalEntry.Number`) are
  `Nat`.
* `error` results are `Option String` (`none` = `nil`) or `Except String _`.
* The storage collaborator (`vfs.VirtualFileSystem`) is an oracle record
  `VFSState`; image decoding + ANSI rendering (package `image`,
  `pixterm/ansimage`) is likewise an oracle field, since those collaborators
  are external to the repository.
-/

/-- `data.FileMode` of the external `vfs` library.  The TUI core only ever
queries `IsMount` on it (`IsDir` is pre-computed into `Entry.IsDir` by the
adapter), so the embedding keeps just that bit. -/
structure GoFileMode where
  IsMount : Bool
deriving DecidableEq

/-- `Entry` (entry.go): read-only snapshot of one filesystem node.
`ModTime` is an abstract timestamp, `MimeType` an advisory tag; neither is
inspected by any modelled operation. -/
structure Entry where
  Name : String
  Path : String
  Size : Int
  Mode : GoFileMode
  ModTime : Int
  IsDir : Bool
  MimeType : String
deriving DecidableEq

/-- Round `num / den` to the nearest integer, ties to even.  Used to model
Go's `%.1f` formatting of an exact quotient: `fmt` rounds the `float64`
value to one decimal digit (half-to-even); for the quotients produced below
the `float64` value and the exact rational agree on the rounded digit. -/
def roundHalfEven (num den : Nat) : Nat :=
  let q := num / den
  let r := num % den
  if 2 * r < den then q
  else if 2 * r > den then q + 1
  else if q % 2 = 0 then q else q + 1

/-- The scaling loop of `Entry.DisplaySize`:
`for n := size/unit; n >= unit; n /= unit { div *= unit; exp++ }`. -/
def sizeScale (n div exp : Nat) : Nat × Nat :=
  if h : 1024 ≤ n then sizeScale (n / 1024) (div * 1024) (exp + 1)
  else (div, exp)
termination_by n
decreasing_by exact Nat.div_lt_self (by omega) (by omega)

/-- The unit characters of `DisplaySize`, the Go string constant "KMGTPE".
For an `int64` size the exponent is at most 5, so the default of `getD` is
never reached. -/
def sizeUnitChar (exp : Nat) : Char :=
  (['K', 'M', 'G', 'T', 'P', 'E']).getD exp 'K'

/-- `Entry.DisplaySize` (entry.go): human-readable size.  Mount points show
"<MNT>" (checked first), directories "<DIR>", sizes below 1024 are printed
in bytes, larger sizes binary-scaled with one decimal place
(`fmt.Sprintf("%.1f %cB", float64(size)/float64(div), "KMGTPE"[exp])`,
modelled by exact rational rounding, see `roundHalfEven`). -/
def Entry.DisplaySize (e : Entry) : String :=
  if e.Mode.IsMount then "<MNT>"
  else if e.IsDir then "<DIR>"
  else if e.Size < 1024 then s!"{e.Size} B"
  else
    let sz := e.Size.toNat
    let p := sizeScale (sz / 1024) 1024 0
    let div := p.1
    let exp := p.2
    let scaled := roundHalfEven (sz * 10) div
    let ipart := scaled / 10
    let fpart := scaled % 10
    let c := sizeUnitChar exp
    s!"{ipart}.{fpart} {c}B"

/-- `strings.ToLower` for the ASCII range (the only characters appearing in
extension tables and confirmation answers; Go lowercases full Unicode). -/
def goToLower (s : String) : String :=
  ⟨s.data.map (fun c => if 'A' ≤ c ∧ c ≤ 'Z' then Char.ofNat (c.toNat + 32) else c)⟩

/-- `strings.TrimSpace` over leading and trailing whitespace (Go trims the
Unicode class; tab/newline/CR/space cover the modelled inputs). -/
def goTrimSpace (s : String) : String :=
  ⟨((s.data.dropWhile Char.isWhitespace).reverse.dropWhile Char.isWhitespace).reverse⟩

/-- `PreviewType` (entry.go preview section): the closed classification
variant.  Constructors correspond to `PreviewText`, `PreviewImage`,
`PreviewBinary`, `PreviewUnsupported`. -/
inductive PreviewType where
  | text
  | image
  | binary
  | unsupported
deriving DecidableEq

/-- `FileTypeInfo`: how a file should be previewed.  Field names follow the
Go fields `Type`/`Description` (lower-cased: `Type` is reserved in Lean). -/
structure FileTypeInfo where
  type : PreviewType
  description : String
deriving DecidableEq

/-- The scanning loop of Go's `filepath.Ext`, working over the reversed
character list: walk from the end of the path, stop at a path separator,
return from the final dot (inclusive). -/
def extAux : List Char → List Char → List Char
  | [], _ => []
  | c :: rest, acc =>
    if c = '/' then []
    else if c = '.' then c :: acc
    else extAux rest (c :: acc)

/-- `filepath.Ext`: the suffix beginning at the final dot in the final
slash-separated element, empty if there is no dot. -/
def goExt (s : String) : String := ⟨extAux s.data.reverse []⟩

/-- `DetectFileType` (entry.go): purely extension-driven classification.
NOTE: the source initializes `imageExts` as an *empty* map literal
(`imageExts := map[string]bool{}`) under the comment "Image files", while
the image extensions `.png .jpg .jpeg .gif .bmp .webp` appear in
`binaryExts`; the embedding reproduces this faithfully, so the image bucket
is unreachable. -/
def DetectFileType (filename : String) : FileTypeInfo :=
  let ext := goToLower (goExt filename)
  let imageExts : List String := []
  if imageExts.contains ext then
    { type := .image, description := "Image file" }
  else
    let textExts : List String :=
      [".txt", ".md", ".go", ".js", ".py", ".java", ".c", ".cpp",
       ".h", ".hpp", ".rs", ".sh", ".bash", ".zsh", ".fish",
       ".json", ".xml", ".yaml", ".yml", ".toml", ".ini", ".cfg", ".conf",
       ".html", ".css", ".scss", ".sass", ".sql", ".log", ".csv", ".tsv",
       ".gitignore", ".dockerfile", ".env"]
    if textExts.contains ext then
      { type := .text, description := "Text file" }
    else
      let binaryExts : List String :=
        [".zip", ".gz", ".tar", ".bz2", ".7z", ".rar", ".xz",
         ".exe", ".dll", ".so", ".dylib", ".bin", ".dat", ".db", ".sqlite",
         ".pdf", ".doc", ".docx", ".xls", ".xlsx", ".ppt", ".pptx",
         ".mp3", ".mp4", ".avi", ".mkv", ".wav", ".flac", ".ogg",
         ".png", ".jpg", ".jpeg", ".gif", ".bmp", ".webp"]
      if binaryExts.contains ext then
        { type := .binary, description := "Binary file" }
      else if ext = "" ∨ ext = filename then
        { type := .text, description := "Unknown type" }
      else
        { type := .text, description := "Unknown text file" }

/-- UTF-8 decoder over bytes, rejecting (like Go's `unicode/utf8`) overlong
encodings, surrogates and code points above U+10FFFF. -/
def decodeUtf8 : List Nat → Option (List Char)
  | [] => some []
  | b :: rest =>
    if hb : b < 0x80 then
      (decodeUtf8 rest).map (fun cs => Char.ofNat b :: cs)
    else if b < 0xC0 then none
    else if b < 0xE0 then
      match rest with
      | b1 :: rest1 =>
        if 0x80 ≤ b1 ∧ b1 < 0xC0 then
          let cp := (b - 0xC0) * 0x40 + (b1 - 0x80)
          if cp < 0x80 then none
          else (decodeUtf8 rest1).map (fun cs => Char.ofNat cp :: cs)
        else none
      | [] => none
    else if b < 0xF0 then
      match rest with
      | b1 :: b2 :: rest2 =>
        if (0x80 ≤ b1 ∧ b1 < 0xC0) ∧ (0x80 ≤ b2 ∧ b2 < 0xC0) then
          let cp := (b - 0xE0) * 0x1000 + (b1 - 0x80) * 0x40 + (b2 - 0x80)
          if cp < 0x800 then none
          else if 0xD800 ≤ cp ∧ cp < 0xE000 then none
          else (decodeUtf8 rest2).map (fun cs => Char.ofNat cp :: cs)
        else none
      | _ => none
    else if b < 0xF8 then
      match rest with
      | b1 :: b2 :: b3 :: rest3 =>
        if (0x80 ≤ b1 ∧ b1 < 0xC0) ∧ (0x80 ≤ b2 ∧ b2 < 0xC0) ∧
           (0x80 ≤ b3 ∧ b3 < 0xC0) then
          let cp := (b - 0xF0) * 0x40000 + (b1 - 0x80) * 0x1000 +
                    (b2 - 0x80) * 0x40 + (b3 - 0x80)
          if cp < 0x10000 then none
          else if 0x10FFFF < cp then none
          else (decodeUtf8 rest3).map (fun cs => Char.ofNat cp :: cs)
        else none
      | _ => none
    else none

/-- `utf8.Valid` of the Go standard library, via the decoder. -/
def utf8Valid (l : List Nat) : Bool := (decodeUtf8 l).isSome

/-- Control characters counted by `isValidUTF8`: bytes below 32 other than
tab (9), newline (10) and carriage return (13). -/
def controlCount (l : List Nat) : Nat :=
  l.countP (fun b => decide (b < 32 ∧ b ≠ 9 ∧ b ≠ 10 ∧ b ≠ 13))

/-- `isValidUTF8` (entry.go): UTF-8 validity plus a control-character ratio
test `float64(controlCharCount)/float64(len(data)) < 0.05`.
For the inputs that reach this function (at most 10240 bytes) the float
comparison agrees with the exact rational test `20*count < len` — with one
exception: on *empty* input Go computes `0.0/0.0 = NaN`, and `NaN < 0.05`
is false, so empty data is reported as not-text.  The `l ≠ []` conjunct
reproduces exactly that behaviour. -/
def isValidUTF8 (l : List Nat) : Bool :=
  if !utf8Valid l then false
  else decide (l ≠ [] ∧ 20 * controlCount l < l.length)

/-- The storage collaborator as seen by the preview pipeline: `stat` yields
the metadata size, `read` the full byte content (the pipeline itself
truncates), and `decodeRender` stands for the external image
decode/downscale/ANSI-render chain of `GenerateImagePreview` (packages
`image`, `x/image/draw`, `pixterm/ansimage`), producing the final rendered
string (header included) or failing. -/
structure VFSState where
  stat : String → Option Int
  read : String → Option (List Nat)
  decodeRender : List Nat → Option String

/-- `VFSAdapter.GenerateTextPreview` (entry.go): read up to `maxBytes`
bytes, validate as text, fall back to an explicit message otherwise.
`io.ReadFull` tolerating `EOF`/`ErrUnexpectedEOF` means the prefix
`content.take maxBytes` is what gets validated.  The decoded string is
Go's `string(buf)`; it is only built on the valid branch. -/
def GenerateTextPreview (fs : VFSState) (path : String) (maxBytes : Nat) :
    Except String String :=
  match fs.read path with
  | none => .error "read failed"
  | some content =>
    let buf := content.take maxBytes
    if !isValidUTF8 buf then
      .ok "[Binary file - cannot preview as text]"
    else
      .ok ⟨(decodeUtf8 buf).getD []⟩

/-- The "too large" message of `GenerateImagePreview`:
`fmt.Sprintf("[Image too large to preview: %.1f MB]\n\nUse a dedicated
image viewer for files > 5MB", float64(stat.Size)/(1024*1024))`. -/
def imageTooLargeMsg (size : Int) : String :=
  let scaled := roundHalfEven (size.toNat * 10) (1024 * 1024)
  let ipart := scaled / 10
  let fpart := scaled % 10
  s!"[Image too large to preview: {ipart}.{fpart} MB]\n\nUse a dedicated image viewer for files > 5MB"

/-- `VFSAdapter.GenerateImagePreview` (entry.go): stat first and
short-circuit with a descriptive message (not an error) above the 5 MiB
cap; otherwise open, decode, downscale and render (the external
`decodeRender` oracle).  Error strings wrap the collaborator's error; the
claims never inspect them, so they are fixed tags here. -/
def GenerateImagePreview (fs : VFSState) (path : String) :
    Except String String :=
  match fs.stat path with
  | none => .error "failed to stat image"
  | some size =>
    if size > 5 * 1024 * 1024 then .ok (imageTooLargeMsg size)
    else
      match fs.read path with
      | none => .error "failed to open image"
      | some bytes =>
        match fs.decodeRender bytes with
        | none => .error "failed to decode image"
        | some rendered => .ok rendered

/-- Hex digit characters of `encoding/hex` ("0123456789abcdef"): digits
below ten map from '0', the rest from 'a'. -/
def hexDigit (n : Nat) : Char :=
  if n < 10 then Char.ofNat ('0'.toNat + n) else Char.ofNat ('a'.toNat + (n - 10))

/-- Two lowercase hex digits of one byte. -/
def hexByte (b : Nat) : List Char := [hexDigit (b / 16), hexDigit (b % 16)]

/-- Eight hex digits of a dump offset. -/
def hexOffset (n : Nat) : List Char :=
  ((List.range 8).reverse).map (fun i => hexDigit (n / 16 ^ i % 16))

/-- The ASCII column of `hex.Dumper`: printable bytes as themselves,
everything else as a dot. -/
def toAsciiChar (b : Nat) : Char :=
  if b < 32 ∨ b > 126 then '.' else Char.ofNat b

/-- One output line of `hex.Dumper` for a chunk of 1–16 bytes starting at
byte offset `off`: the 8-digit offset, two spaces, sixteen 3-character hex
cells (absent bytes become spaces, as `Close` pads partial lines), an extra
space after the 8th cell, a space and `|` after the 16th, then the ASCII
column closed by `|` and a newline. -/
def dumpChunk (off : Nat) (bs : List Nat) : List Char :=
  let cell := fun (i : Nat) =>
    (match bs[i]? with
     | some b => hexByte b ++ [' ']
     | none => [' ', ' ', ' ']) ++
    (if i = 7 then [' '] else []) ++
    (if i = 15 then [' ', '|'] else [])
  hexOffset off ++ [' ', ' '] ++ (List.range 16).foldr (fun i acc => cell i ++ acc) [] ++
    bs.map toAsciiChar ++ ['|', '\n']

/-- `hex.Dumper` + `Close` over a whole byte sequence: 16-byte lines. -/
def hexDumpAux (bytes : List Nat) (off : Nat) : List Char :=
  if h : bytes = [] then []
  else dumpChunk off (bytes.take 16) ++ hexDumpAux (bytes.drop 16) (off + 16)
termination_by bytes.length
decreasing_by
  simp only [List.length_drop]
  have : 0 < bytes.length := List.length_pos.mpr h
  omega

/-- The full hex dump string written through `hex.Dumper(&preview)`. -/
def hexDump (bytes : List Nat) : String := ⟨hexDumpAux bytes 0⟩

/-- The trailing-element extraction of Go's `filepath.Base`, for the
slash-separated paths the model produces (`Base` additionally handles
volume names, which do not occur here). -/
def goBase (s : String) : String :=
  if s = "" then "."
  else
    let r := s.data.reverse.dropWhile (fun c => c = '/')
    if r = [] then "/"
    else ⟨(r.takeWhile (fun c => c ≠ '/')).reverse⟩

/-- `VFSAdapter.GenerateBinaryPreview` (entry.go): read a 512-byte prefix,
render a header (base name, total size from stat), a hex dump of
`min(maxBytes, len(buf))` bytes and a truncation notice when the file is
larger than what was dumped. -/
def GenerateBinaryPreview (fs : VFSState) (path : String) (maxBytes : Nat) :
    Except String String :=
  match fs.read path with
  | none => .error "open failed"
  | some content =>
    match fs.stat path with
    | none => .error "stat failed"
    | some size =>
      let buf := content.take 512
      let dumpSize := Nat.min maxBytes buf.length
      let header :=
        s!"Binary file: {goBase path}\n" ++
        s!"Size: {size} bytes\n\n" ++
        "Hex dump (first 512 bytes):\n" ++
        (⟨List.replicate 60 '-'⟩ : String) ++ "\n"
      let dump := hexDump (buf.take dumpSize)
      let trailer := if size > (dumpSize : Int) then "\n... (truncated)" else ""
      .ok (header ++ dump ++ trailer)

/-- `VFSAdapter.GeneratePreview` (entry.go): classify by name, then
dispatch; text errors propagate, image failures fall back to the binary
dump, unknown types are treated as text. -/
def GeneratePreview (fs : VFSState) (path : String) : Except String String :=
  let fileInfo := DetectFileType path
  match fileInfo.type with
  | .text => GenerateTextPreview fs path 10240
  | .image =>
    match GenerateImagePreview fs path with
    | .error _ => GenerateBinaryPreview fs path 1024
    | .ok content => .ok content
  | .binary => GenerateBinaryPreview fs path 1024
  | .unsupported => .ok s!"[Cannot preview {fileInfo.description} files]"

/-- The loop of `parseCommandLine` (model.go): state is the accumulated
`args`, the current token builder, and the quote state (`inQuote`,
`quoteChar`); after the loop a non-empty current token is flushed.
`quoteChar` starts as `rune(0)`. -/
def parseLoop : List Char → List (List Char) → List Char → Bool → Char →
    List (List Char)
  | [], args, current, _, _ =>
    if current ≠ [] then args ++ [current] else args
  | ch :: rest, args, current, inQuote, quoteChar =>
    if ch = '"' ∨ ch = '\'' then
      if inQuote then
        if ch = quoteChar then parseLoop rest args current false (Char.ofNat 0)
        else parseLoop rest args (current ++ [ch]) inQuote quoteChar
      else parseLoop rest args current true ch
    else if ch = ' ' ∧ !inQuote then
      if current ≠ [] then parseLoop rest (args ++ [current]) [] inQuote quoteChar
      else parseLoop rest args current inQuote quoteChar
    else parseLoop rest args (current ++ [ch]) inQuote quoteChar

/-- `parseCommandLine` (model.go): split a command line into tokens,
honoring single and double quotes. -/
def parseCommandLine (line : String) : List String :=
  (parseLoop line.data [] [] false (Char.ofNat 0)).map (fun cs => (⟨cs⟩ : String))

/-- Space-splitting written from the specification's words (amended to the
space character): drop spaces, each token is a maximal run of non-space
characters, no empty tokens. -/
def splitSp : List Char → List (List Char)
  | [] => []
  | c :: rest =>
    if c = ' ' then splitSp rest
    else (c :: rest.takeWhile (fun d => d ≠ ' ')) ::
         splitSp (rest.dropWhile (fun d => d ≠ ' '))
termination_by l => l.length
decreasing_by
  all_goals
    have := (List.dropWhile_sublist (l := rest) (fun d => decide (d ≠ ' '))).length_le
    simp only [List.length_cons]
    omega

/-- `splitSp` with a pending current token, the bridge between the
tokenizer loop state and `splitSp`. -/
def splitSpAux (cur : List Char) : List Char → List (List Char)
  | [] => if cur = [] then [] else [cur]
  | c :: rest =>
    if c = ' ' then
      (if cur = [] then splitSpAux [] rest else cur :: splitSpAux [] rest)
    else splitSpAux (cur ++ [c]) rest

/-- `Mode` (model.go): the interaction mode.  The Go zero value is
`ModeNormal`. -/
inductive Mode where
  | normal
  | command
  | input
  | help
  | terminal
deriving DecidableEq

/-- `InputType` (model.go): what kind of input is being collected.  The Go
zero value is `InputNewFile`. -/
inductive InputType where
  | newFile
  | newDir
  | rename
  | delete
  | command
deriving DecidableEq

/-- `TerminalEntry` (model.go): one executed command in terminal history.
`Output`/`Error` start empty and are filled in when the execution
completes. -/
structure TerminalEntry where
  Number : Nat
  Path : String
  Command : String
  Output : String
  Error : String
deriving DecidableEq

/-- `Model` (model.go): the whole TUI state.  The `adapter`, `theme`,
`keys` and `help` fields are external collaborators (storage handle,
styling, static key tables) and carry no modelled state; of the bubbles
`textinput.Model` only the entered value and focus flag are kept. -/
structure Model where
  currentPath : String
  previousDir : String
  entries : List Entry
  cursor : Int
  offset : Int
  width : Int
  height : Int
  showPreview : Bool
  previewContent : String
  previewError : Option String
  previewGen : Nat
  lastClickTime : Int
  lastClickY : Int
  fileListTop : Int
  mode : Mode
  inputType : InputType
  textValue : String
  textFocused : Bool
  statusMsg : String
  errorMsg : String
  commandOut : String
  terminalHistory : List TerminalEntry
  terminalOffset : Int
  commandCounter : Nat
  clipboard : String
  showFullHelp : Bool
deriving DecidableEq

/-- `NewModel` (model.go): fields not set explicitly take the Go zero
value (empty strings and lists, zero integers, `ModeNormal`,
`InputNewFile`). -/
def initModel : Model :=
  { currentPath := "/"
    previousDir := ""
    entries := []
    cursor := 0
    offset := 0
    width := 0
    height := 0
    showPreview := true
    previewContent := ""
    previewError := none
    previewGen := 0
    lastClickTime := 0
    lastClickY := 0
    fileListTop := 0
    mode := .normal
    inputType := .newFile
    textValue := ""
    textFocused := false
    statusMsg := ""
    errorMsg := ""
    commandOut := ""
    terminalHistory := []
    terminalOffset := 0
    commandCounter := 0
    clipboard := ""
    showFullHelp := false }

/-- Key events, one per key binding of `DefaultKeyMap` plus the raw
`Escape`/`Enter` key types and plain typed characters.  A physical key is
mapped to the first binding it belongs to (so the letters `k`/`j` are
`.up`/`.down`); keys bound to no binding arrive as `.char`.  Within
`handleInputMode` the source routes every key other than Escape/Enter to
the external text input, which the embedding models as appending typed
characters (`.char`) and ignoring the rest. -/
inductive KeyEvent where
  | up
  | down
  | pageUp
  | pageDown
  | top
  | bottom
  | enter
  | back
  | togglePreview
  | refresh
  | newFile
  | newDir
  | delete
  | rename
  | copy
  | commandKey
  | helpKey
  | quit
  | escape
  | char (c : Char)
deriving DecidableEq

/-- Mouse press events (`tea.MouseActionPress`); releases and motion are
ignored by the source and not modelled.  A left click carries its row `y`
and the `time.Now().UnixNano()` timestamp observed at processing time. -/
inductive MouseEvent where
  | wheelUp
  | wheelDown
  | left (y : Int) (now : Int)
  | right
deriving DecidableEq

/-- The inbound messages of the single-threaded update loop: window
resizes, the four task-completion messages (`directoryLoadedMsg`,
`previewLoadedMsg`, `commandExecutedMsg`, `errorMsg`) and key/mouse
events.  `cmdExecuted` carries the index of the terminal-history entry the
detached task mutates in place just before enqueuing the message (`none`
for command-mode one-shot executions, which have no history entry). -/
inductive Msg where
  | winSize (w h : Int)
  | dirLoaded (entries : List Entry)
  | previewLoaded (content : String) (err : Option String) (generation : Nat)
  | cmdExecuted (idx : Option Nat) (output : String) (error : String)
  | errLoaded (s : String)
  | key (k : KeyEvent)
  | mouse (me : MouseEvent)
deriving DecidableEq

/-- The detached tasks a processing step can dispatch (`tea.Cmd`s):
directory loads, preview generation (tagged with the generation current at
dispatch), the trivial empty-preview task, command execution (with the
history index its closure will fill in), the four mutation tasks, and
`tea.Quit`. -/
inductive Cmd where
  | loadDir (path : String)
  | previewEmpty (generation : Nat)
  | previewFile (generation : Nat) (path : String)
  | execCmd (line : String) (idx : Option Nat)
  | createFileT (path : String)
  | createDirT (path : String)
  | deleteT (path : String) (isDir : Bool)
  | renameT (oldPath newPath : String) (isDir : Bool)
  | quit
deriving DecidableEq

/-- `Model.getVisibleLines`: viewport height minus 8 reserved rows,
floor 5. -/
def getVisibleLines (m : Model) : Int :=
  let available := m.height - 8
  if available < 5 then 5 else available

/-- `Model.currentEntry`: the selected entry when the cursor is in
range. -/
def currentEntry (m : Model) : Option Entry :=
  if 0 ≤ m.cursor ∧ m.cursor < (m.entries.length : Int) then
    m.entries[m.cursor.toNat]?
  else none

/-- `Model.moveCursor`: add the delta, clamp into `[0, len-1]`, then pull
the scroll offset along so the cursor stays inside the visible window;
no-op on an empty entry list. -/
def moveCursor (m : Model) (delta : Int) : Model :=
  if m.entries.length = 0 then m
  else
    let cursor := m.cursor + delta
    let cursor := if cursor < 0 then 0 else cursor
    let cursor :=
      if cursor ≥ (m.entries.length : Int) then (m.entries.length : Int) - 1
      else cursor
    let visibleLines := getVisibleLines m
    let offset := if cursor < m.offset then cursor else m.offset
    let offset :=
      if cursor ≥ offset + visibleLines then cursor - visibleLines + 1
      else offset
    { m with cursor := cursor, offset := offset }

/-- `Model.updatePreview`: nothing when the preview pane is hidden;
otherwise increment the generation counter and dispatch either the trivial
empty-preview task (no entry selected, or a directory) or a preview
generation task for the selected file's path. -/
def updatePreviewM (m : Model) : Model × List Cmd :=
  if !m.showPreview then (m, [])
  else
    let m := { m with previewGen := m.previewGen + 1 }
    let currentGen := m.previewGen
    match currentEntry m with
    | none => (m, [.previewEmpty currentGen])
    | some entry =>
      if entry.IsDir then (m, [.previewEmpty currentGen])
      else (m, [.previewFile currentGen entry.Path])

/-- The detached closure `updatePreview` returns for a missing or
directory entry: it immediately completes with empty content, no error and
the dispatched generation. -/
def runPreviewEmptyTask (generation : Nat) : Msg :=
  .previewLoaded "" none generation

/-- `filepath.Join(a, b)` for the simple shapes produced here
(`filepath.Join` additionally cleans the result; no modelled path needs
cleaning). -/
def joinPath (a b : String) : String :=
  match a.data.getLast? with
  | some '/' => a ++ b
  | _ => a ++ "/" ++ b

/-- The directory part of Go's `filepath.Dir` for slash-separated paths
without dot segments (the shapes `currentPath` takes): everything before
the last separator, trailing separators stripped, `/` for top-level
entries and `.` when there is no separator. -/
def goDir (s : String) : String :=
  let r := s.data.reverse.dropWhile (fun c => c ≠ '/')
  if r = [] then "."
  else
    let r2 := r.dropWhile (fun c => c = '/')
    if r2 = [] then "/" else ⟨r2.reverse⟩

/-- `Model.enterDirectory`: no-op without a selection; a status message on
files; on directories replace the path, clear the remembered previous
directory, reset cursor and offset, and dispatch a reload. -/
def enterDirectory (m : Model) : Model × List Cmd :=
  match currentEntry m with
  | none => (m, [])
  | some entry =>
    if !entry.IsDir then
      ({ m with statusMsg := "Cannot open file: " ++ entry.Name }, [])
    else
      ({ m with
          currentPath := entry.Path
          previousDir := ""
          cursor := 0
          offset := 0 }, [.loadDir entry.Path])

/-- `Model.goBack`: no-op at the root; otherwise remember the name of the
directory being left, move to the parent, reset cursor and offset, and
dispatch a reload. -/
def goBack (m : Model) : Model × List Cmd :=
  if m.currentPath = "/" then (m, [])
  else
    let m := { m with
      previousDir := goBase m.currentPath
      currentPath := goDir m.currentPath
      cursor := 0
      offset := 0 }
    (m, [.loadDir m.currentPath])

/-- `Model.startInput`: enter input mode (command mode for
`InputCommand`), set the prompt as placeholder, clear the buffer, focus
it, and clear status and error messages.  The placeholder text is part of
the external text input and not modelled. -/
def startInput (m : Model) (inputType : InputType) : Model :=
  let m := { m with
    mode := .input
    inputType := inputType
    textValue := ""
    textFocused := true
    errorMsg := ""
    statusMsg := "" }
  if inputType = .command then { m with mode := .command } else m

/-- `Model.cancelInput`: back to normal mode, blur and clear the buffer. -/
def cancelInput (m : Model) : Model :=
  { m with mode := .normal, textFocused := false, textValue := "" }

/-- `Model.submitInput`: trim the buffer; command mode is cleared in place
and dispatches execution; other kinds close the input and route by kind,
with an empty trimmed value a no-op, and deletion only on a
case-insensitive "y"/"yes". -/
def submitInput (m : Model) : Model × List Cmd :=
  let value := goTrimSpace m.textValue
  if m.inputType = .command then
    let m := { m with textValue := "" }
    if value = "" then (m, [])
    else (m, [.execCmd value none])
  else
    let m := cancelInput m
    if value = "" then (m, [])
    else
      match m.inputType with
      | .newFile => (m, [.createFileT (joinPath m.currentPath value)])
      | .newDir => (m, [.createDirT (joinPath m.currentPath value)])
      | .rename =>
        match currentEntry m with
        | none => (m, [])
        | some entry =>
          (m, [.renameT entry.Path (joinPath m.currentPath value) entry.IsDir])
      | .delete =>
        if goToLower value = "y" ∨ goToLower value = "yes" then
          match currentEntry m with
          | none => (m, [])
          | some entry => (m, [.deleteT entry.Path entry.IsDir])
        else (m, [])
      | .command => (m, [])

/-- `Model.submitTerminalCommand`: trim and clear the input; ignore empty
lines; otherwise append a history entry numbered with `commandCounter` and
tagged with `currentPath` *before* execution completes, increment the
counter, and dispatch the execution task (whose closure will fill in the
entry at the recorded index). -/
def submitTerminalCommand (m : Model) : Model × List Cmd :=
  let cmdLine := goTrimSpace m.textValue
  let m := { m with textValue := "" }
  if cmdLine = "" then (m, [])
  else
    let entry : TerminalEntry :=
      { Number := m.commandCounter
        Path := m.currentPath
        Command := cmdLine
        Output := ""
        Error := "" }
    let idx := m.terminalHistory.length
    let m := { m with
      terminalHistory := m.terminalHistory ++ [entry]
      commandCounter := m.commandCounter + 1 }
    (m, [.execCmd cmdLine (some idx)])

/-- `Model.handleNormalMode` (model.go): normal-mode key dispatch. -/
def handleNormalMode (m : Model) (k : KeyEvent) : Model × List Cmd :=
  match k with
  | .quit => (m, [.quit])
  | .escape =>
    if m.commandOut ≠ "" ∧ m.mode ≠ .terminal then
      ({ m with commandOut := "", errorMsg := "", statusMsg := "" }, [])
    else (m, [])
  | .helpKey => ({ m with mode := .help, showFullHelp := !m.showFullHelp }, [])
  | .up => updatePreviewM (moveCursor m (-1))
  | .down => updatePreviewM (moveCursor m 1)
  | .pageUp => updatePreviewM (moveCursor m (-10))
  | .pageDown => updatePreviewM (moveCursor m 10)
  | .top => updatePreviewM { m with cursor := 0, offset := 0 }
  | .bottom =>
    let m :=
      if 0 < m.entries.length then
        { m with cursor := (m.entries.length : Int) - 1 }
      else m
    updatePreviewM m
  | .enter => enterDirectory m
  | .back => goBack m
  | .togglePreview => ({ m with showPreview := !m.showPreview }, [])
  | .refresh => (m, [.loadDir m.currentPath])
  | .newFile => (startInput m .newFile, [])
  | .newDir => (startInput m .newDir, [])
  | .delete =>
    match currentEntry m with
    | some _ => (startInput m .delete, [])
    | none => (m, [])
  | .rename =>
    match currentEntry m with
    | some entry => ({ startInput m .rename with textValue := entry.Name }, [])
    | none => (m, [])
  | .copy =>
    match currentEntry m with
    | some entry =>
      ({ m with clipboard := entry.Path, statusMsg := "Copied: " ++ entry.Name }, [])
    | none => (m, [])
  | .commandKey =>
    if m.mode = .terminal then
      ({ m with mode := .normal, textFocused := false }, [])
    else
      ({ m with
          mode := .terminal
          textValue := ""
          textFocused := true
          terminalOffset := 0 }, [])
  | _ => (m, [])

/-- `Model.handleInputMode`: Escape cancels (command mode merely blurs and
returns to normal), Enter submits, anything else is edited into the text
input (modelled as appending typed characters). -/
def handleInputMode (m : Model) (k : KeyEvent) : Model × List Cmd :=
  match k with
  | .escape =>
    if m.mode = .command then
      ({ m with textFocused := false, mode := .normal }, [])
    else (cancelInput m, [])
  | .enter => submitInput m
  | .char c => ({ m with textValue := m.textValue.push c }, [])
  | _ => (m, [])

/-- `Model.handleHelpMode`: only the help toggle and quit keys leave help
mode; everything else is ignored. -/
def handleHelpMode (m : Model) (k : KeyEvent) : Model × List Cmd :=
  match k with
  | .helpKey => ({ m with mode := .normal }, [])
  | .quit => ({ m with mode := .normal }, [])
  | _ => (m, [])

/-- `Model.handleTerminalMode`: the terminal toggle and Escape return to
normal mode, Up/Down scroll history by one (clamped), PageUp/PageDown by
ten (clamped at zero below), Enter submits the line, everything else is
edited into the input. -/
def handleTerminalMode (m : Model) (k : KeyEvent) : Model × List Cmd :=
  match k with
  | .commandKey => ({ m with mode := .normal, textFocused := false }, [])
  | .up =>
    if m.terminalOffset < (m.terminalHistory.length : Int) * 3 then
      ({ m with terminalOffset := m.terminalOffset + 1 }, [])
    else (m, [])
  | .down =>
    if m.terminalOffset > 0 then
      ({ m with terminalOffset := m.terminalOffset - 1 }, [])
    else (m, [])
  | .pageUp => ({ m with terminalOffset := m.terminalOffset + 10 }, [])
  | .pageDown =>
    let t := m.terminalOffset - 10
    ({ m with terminalOffset := if t < 0 then 0 else t }, [])
  | .enter => submitTerminalCommand m
  | .escape => ({ m with mode := .normal, textFocused := false }, [])
  | .char c => ({ m with textValue := m.textValue.push c }, [])
  | _ => (m, [])

/-- `Model.handleKeyPress`: mode dispatch. -/
def handleKeyPress (m : Model) (k : KeyEvent) : Model × List Cmd :=
  match m.mode with
  | .command => handleInputMode m k
  | .input => handleInputMode m k
  | .help => handleHelpMode m k
  | .terminal => handleTerminalMode m k
  | .normal => handleNormalMode m k

/-- The double-click window: `500 * time.Millisecond` in nanoseconds. -/
def doubleClickThreshold : Int := 500 * 1000000

/-- `Model.handleMouseEvent`: ignored outside normal mode; wheel steps the
cursor, a left click selects the clicked row (double-click within the
window, same row and same resolved index enters the directory), a right
click goes back. -/
def handleMouseEvent (m : Model) (me : MouseEvent) : Model × List Cmd :=
  if m.mode ≠ .normal then (m, [])
  else
    match me with
    | .wheelUp => updatePreviewM (moveCursor m (-1))
    | .wheelDown => updatePreviewM (moveCursor m 1)
    | .left y now =>
      let m := { m with fileListTop := 2 }
      if y < m.fileListTop then (m, [])
      else
        let clickedLine := y - m.fileListTop
        let clickedIndex := m.offset + clickedLine
        if 0 ≤ clickedIndex ∧ clickedIndex < (m.entries.length : Int) then
          let isDoubleClick :=
            now - m.lastClickTime < doubleClickThreshold ∧
            y = m.lastClickY ∧ clickedIndex = m.cursor
          let m := { m with lastClickTime := now, lastClickY := y }
          if isDoubleClick then
            enterDirectory { m with cursor := clickedIndex }
          else
            updatePreviewM { m with cursor := clickedIndex }
        else (m, [])
    | .right => goBack m

/-- The `directoryLoadedMsg` case of `Model.Update`: install the new entry
list, clear the error; if a previous-directory name is remembered position
the cursor on it (adjusting the offset to keep it visible) and clear the
memory, otherwise clamp the cursor into the new list; finally refresh the
preview. -/
def applyDirLoaded (m : Model) (es : List Entry) : Model × List Cmd :=
  let m := { m with entries := es, errorMsg := "" }
  let m :=
    if m.previousDir ≠ "" then
      let m :=
        match m.entries.findIdx? (fun e => e.Name = m.previousDir) with
        | some i =>
          let cursor := (i : Int)
          let visibleLines := getVisibleLines m
          let offset :=
            if cursor ≥ m.offset + visibleLines then cursor - visibleLines + 1
            else if cursor < m.offset then cursor
            else m.offset
          { m with cursor := cursor, offset := offset }
        | none => m
      { m with previousDir := "" }
    else
      let m :=
        if 0 < m.entries.length ∧ (m.entries.length : Int) ≤ m.cursor then
          { m with cursor := (m.entries.length : Int) - 1 }
        else m
      if m.cursor < 0 then { m with cursor := 0 } else m
  updatePreviewM m

/-- Write the completed output and error into the history entry the
execution task mutates through its captured pointer (out-of-range indices
cannot occur in the source and leave the list unchanged). -/
def updAt : List TerminalEntry → Nat → String → String → List TerminalEntry
  | [], _, _, _ => []
  | t :: ts, 0, o, e => { t with Output := o, Error := e } :: ts
  | t :: ts, n + 1, o, e => t :: updAt ts n o e

/-- `Model.Update` (model.go): the single message-processing step.  It
returns the updated model and the list of dispatched detached tasks.  The
source's trailing `textInput.Update` forwarding for non-key messages in
input modes only concerns cursor-blink ticks of the external text input
and is not modelled. -/
def step (m : Model) (msg : Msg) : Model × List Cmd :=
  match msg with
  | .winSize w h => ({ m with width := w, height := h }, [])
  | .dirLoaded es => applyDirLoaded m es
  | .previewLoaded content err generation =>
    if generation = m.previewGen then
      ({ m with previewContent := content, previewError := err }, [])
    else (m, [])
  | .cmdExecuted idx output error =>
    let m :=
      match idx with
      | some i => { m with terminalHistory := updAt m.terminalHistory i output error }
      | none => m
    ({ m with
        commandOut := output
        errorMsg := error
        statusMsg := "Command executed" }, [.loadDir m.currentPath])
  | .errLoaded s => ({ m with errorMsg := s }, [])
  | .key k => handleKeyPress m k
  | .mouse me => handleMouseEvent m me

/-- Iterated message processing (the single-threaded update loop). -/
def runModel (m : Model) (msgs : List Msg) : Model :=
  msgs.foldl (fun mm e => (step mm e).1) m

/-- The detached closure of `Model.loadDirectory`: a successful listing
re-enters the loop as `directoryLoadedMsg`, a failure as an `errorMsg`
with the formatted text. -/
def runLoadDirTask (res : Except String (List Entry)) : Msg :=
  match res with
  | .ok es => .dirLoaded es
  | .error e => .errLoaded ("Failed to load directory: " ++ e)

/-- The terminal-history bookkeeping invariant (claim C9): the command
counter equals the history length and every entry is numbered by its
index. -/
def histInvL (m : Model) : Prop :=
  m.commandCounter = m.terminalHistory.length ∧
  ∀ (i : Nat) (t : TerminalEntry), m.terminalHistory[i]? = some t → t.Number = i

/-- A plain file entry used in concrete scenarios. -/
def sampleFile (n : String) : Entry :=
  { Name := n, Path := "/" ++ n, Size := 1, Mode := ⟨false⟩, ModTime := 0,
    IsDir := false, MimeType := "" }

/-- A directory entry used in concrete scenarios. -/
def sampleDir (n p : String) : Entry :=
  { Name := n, Path := p, Size := 0, Mode := ⟨false⟩, ModTime := 0,
    IsDir := true, MimeType := "" }

/-- Scenario: load four files, move the cursor down three times, then a
reload completes with an empty listing (the directory was emptied).  The
stale cursor value 3 survives on an empty entry list. -/
def traceEmptyReload : List Msg :=
  [.dirLoaded [sampleFile "a", sampleFile "b", sampleFile "c", sampleFile "d"],
   .key .down, .key .down, .key .down, .dirLoaded []]

/-- Scenario: enter directory `/a` (five entries), go back, move the cursor
down twice on the still-displayed old listing while the reload is in
flight, then the reload completes with a single entry not named "a".  The
remembered previous-directory name misses and the stale cursor 2 survives
on a one-element list. -/
def traceStaleBack : List Msg :=
  [.dirLoaded [sampleDir "a" "/a"], .key .enter,
   .dirLoaded [sampleFile "g0", sampleFile "g1", sampleFile "g2",
               sampleFile "g3", sampleFile "g4"],
   .key .back, .key .down, .key .down, .dirLoaded [sampleFile "b"]]

/-- Scenario: a 13-row viewport (5 visible lines), twenty entries, preview
hidden, then the to-end key.  The cursor lands on entry 19 while the
scroll offset stays 0. -/
def traceToEnd : List Msg :=
  [.winSize 80 13, .dirLoaded (List.replicate 20 (sampleFile "x")),
   .key .togglePreview, .key .bottom]

/-- Storage oracle holding a single 6 MiB file `/photo.png` (content is a
PNG signature prefix; the decoder oracle would fail, but is never
reached). -/
def fsC2 : VFSState :=
  { stat := fun p => if p = "/photo.png" then some (6 * 1024 * 1024) else none
    read := fun p => if p = "/photo.png" then some [0x89, 0x50, 0x4E, 0x47] else none
    decodeRender := fun _ => none }

/-- Storage oracle holding a single zero-byte file `/empty.txt`. -/
def fsC3 : VFSState :=
  { stat := fun p => if p = "/empty.txt" then some 0 else none
    read := fun p => if p = "/empty.txt" then some [] else none
    decodeRender := fun _ => none }

/-- A model whose selected entry is a directory, preview shown. -/
def mC3dir : Model :=
  { initModel with entries := [sampleDir "docs" "/docs"], cursor := 0 }

/-- A model in terminal mode with a pending input line. -/
def mTermLs : Model :=
  { initModel with mode := .terminal, textValue := "ls" }

/-- A normal-mode model with three entries, used to instantiate the
universally quantified claim theorems. -/
def mThree : Model :=
  { initModel with
      entries := [sampleFile "a", sampleFile "b", sampleFile "c"]
      cursor := 1, offset := 0, height := 20 }

/-- `mThree` with the preview pane hidden. -/
def mThreeOff : Model := { mThree with showPreview := false }

/-- A mount-point entry (also a directory) for the size-format claims. -/
def eMnt : Entry :=
  { Name := "m", Path := "/m", Size := 7, Mode := ⟨true⟩, ModTime := 0,
    IsDir := true, MimeType := "" }

/-- A plain directory entry for the size-format claims. -/
def eDir : Entry :=
  { Name := "d", Path := "/d", Size := 7, Mode := ⟨false⟩, ModTime := 0,
    IsDir := true, MimeType := "" }

/-- A zero-byte file entry for the size-format claims. -/
def eZero : Entry :=
  { Name := "z", Path := "/z", Size := 0, Mode := ⟨false⟩, ModTime := 0,
    IsDir := false, MimeType := "" }

/-- A 1536-byte file entry for the size-format claims. -/
def e1536 : Entry :=
  { Name := "k", Path := "/k", Size := 1536, Mode := ⟨false⟩, ModTime := 0,
    IsDir := false, MimeType := "" }

lemma getVisibleLines_ge (m : Model) : 5 ≤ getVisibleLines m := by
  unfold getVisibleLines
  dsimp only
  split <;> omega

lemma getVisibleLines_congr (m1 m2 : Model) (h : m1.height = m2.height) :
    getVisibleLines m1 = getVisibleLines m2 := by
  unfold getVisibleLines
  rw [h]

lemma updatePreviewM_frame (m : Model) :
    (updatePreviewM m).1.cursor = m.cursor ∧ (updatePreviewM m).1.offset = m.offset ∧
    (updatePreviewM m).1.entries = m.entries ∧ (updatePreviewM m).1.height = m.height := by
  unfold updatePreviewM
  split
  · exact ⟨rfl, rfl, rfl, rfl⟩
  · dsimp only
    repeat' first | exact ⟨rfl, rfl, rfl, rfl⟩ | split

lemma moveCursor_inv (m : Model) (d : Int) (h : 0 ≤ m.cursor ∧ 0 ≤ m.offset) :
    0 ≤ (moveCursor m d).cursor ∧ 0 ≤ (moveCursor m d).offset := by
  by_cases he : m.entries = []
  · unfold moveCursor
    rw [if_pos (by simp [he])]
    exact h
  · have hv := getVisibleLines_ge m
    have hlen : 0 < m.entries.length := List.length_pos.mpr he
    unfold moveCursor
    rw [if_neg (by omega)]
    dsimp only
    split_ifs <;> omega

lemma moveCursor_bounds (m : Model) (d : Int) (h : m.entries ≠ []) :
    0 ≤ (moveCursor m d).cursor ∧
    (moveCursor m d).cursor < (m.entries.length : Int) ∧
    (moveCursor m d).offset ≤ (moveCursor m d).cursor ∧
    (moveCursor m d).cursor < (moveCursor m d).offset + getVisibleLines m := by
  have hv := getVisibleLines_ge m
  have hlen : 0 < m.entries.length := List.length_pos.mpr h
  unfold moveCursor
  rw [if_neg (by omega)]
  dsimp only
  split_ifs <;> omega

lemma moveCursor_frame (m : Model) (d : Int) :
    (moveCursor m d).entries = m.entries ∧ (moveCursor m d).height = m.height ∧
    (moveCursor m d).showPreview = m.showPreview ∧
    (moveCursor m d).previewGen = m.previewGen ∧
    (moveCursor m d).previewContent = m.previewContent ∧
    (moveCursor m d).previewError = m.previewError ∧
    (moveCursor m d).mode = m.mode := by
  unfold moveCursor
  repeat' first | exact ⟨rfl, rfl, rfl, rfl, rfl, rfl, rfl⟩ | split

lemma enterDirectory_inv (m : Model) (h : 0 ≤ m.cursor ∧ 0 ≤ m.offset) :
    0 ≤ (enterDirectory m).1.cursor ∧ 0 ≤ (enterDirectory m).1.offset := by
  unfold enterDirectory
  repeat' first | exact h | exact ⟨le_refl 0, le_refl 0⟩ | split

lemma goBack_inv (m : Model) (h : 0 ≤ m.cursor ∧ 0 ≤ m.offset) :
    0 ≤ (goBack m).1.cursor ∧ 0 ≤ (goBack m).1.offset := by
  unfold goBack
  repeat' first | exact h | exact ⟨le_refl 0, le_refl 0⟩ | split

lemma startInput_cursor_offset (m : Model) (t : InputType) :
    (startInput m t).cursor = m.cursor ∧ (startInput m t).offset = m.offset := by
  unfold startInput
  repeat' first | exact ⟨rfl, rfl⟩ | split

lemma submitInput_cursor_offset (m : Model) :
    (submitInput m).1.cursor = m.cursor ∧ (submitInput m).1.offset = m.offset := by
  unfold submitInput cancelInput
  dsimp only
  repeat' first | exact ⟨rfl, rfl⟩ | split

lemma submitTerminalCommand_cursor_offset (m : Model) :
    (submitTerminalCommand m).1.cursor = m.cursor ∧
    (submitTerminalCommand m).1.offset = m.offset := by
  unfold submitTerminalCommand
  dsimp only
  repeat' first | exact ⟨rfl, rfl⟩ | split

lemma handleNormalMode_inv (m : Model) (k : KeyEvent)
    (h : 0 ≤ m.cursor ∧ 0 ≤ m.offset) :
    0 ≤ (handleNormalMode m k).1.cursor ∧ 0 ≤ (handleNormalMode m k).1.offset := by
  cases k <;> simp only [handleNormalMode]
  case up | down | pageUp | pageDown =>
    rw [(updatePreviewM_frame _).1, (updatePreviewM_frame _).2.1]
    exact moveCursor_inv m _ h
  case top =>
    rw [(updatePreviewM_frame _).1, (updatePreviewM_frame _).2.1]
    exact ⟨le_refl 0, le_refl 0⟩
  case bottom =>
    rw [(updatePreviewM_frame _).1, (updatePreviewM_frame _).2.1]
    split
    · constructor
      · dsimp only
        rename_i hlen
        omega
      · exact h.2
    · exact h
  case enter => exact enterDirectory_inv m h
  case back => exact goBack_inv m h
  case newFile | newDir =>
    rw [(startInput_cursor_offset m _).1, (startInput_cursor_offset m _).2]
    exact h
  case delete =>
    split
    · rw [(startInput_cursor_offset m _).1, (startInput_cursor_offset m _).2]
      exact h
    · exact h
  case rename =>
    split
    · exact h
    · exact h
  case copy => split <;> exact h
  case commandKey => split <;> exact h
  case escape => split <;> exact h
  all_goals exact h

lemma handleInputMode_inv (m : Model) (k : KeyEvent)
    (h : 0 ≤ m.cursor ∧ 0 ≤ m.offset) :
    0 ≤ (handleInputMode m k).1.cursor ∧ 0 ≤ (handleInputMode m k).1.offset := by
  cases k <;> simp only [handleInputMode]
  case enter =>
    rw [(submitInput_cursor_offset m).1, (submitInput_cursor_offset m).2]
    exact h
  case escape => split <;> exact h
  all_goals exact h

lemma handleHelpMode_inv (m : Model) (k : KeyEvent)
    (h : 0 ≤ m.cursor ∧ 0 ≤ m.offset) :
    0 ≤ (handleHelpMode m k).1.cursor ∧ 0 ≤ (handleHelpMode m k).1.offset := by
  cases k <;> simp only [handleHelpMode] <;> exact h

lemma handleTerminalMode_inv (m : Model) (k : KeyEvent)
    (h : 0 ≤ m.cursor ∧ 0 ≤ m.offset) :
    0 ≤ (handleTerminalMode m k).1.cursor ∧ 0 ≤ (handleTerminalMode m k).1.offset := by
  cases k <;> simp only [handleTerminalMode]
  case enter =>
    rw [(submitTerminalCommand_cursor_offset m).1,
        (submitTerminalCommand_cursor_offset m).2]
    exact h
  all_goals repeat' first | exact h | split

lemma handleMouseEvent_inv (m : Model) (me : MouseEvent)
    (h : 0 ≤ m.cursor ∧ 0 ≤ m.offset) :
    0 ≤ (handleMouseEvent m me).1.cursor ∧ 0 ≤ (handleMouseEvent m me).1.offset := by
  unfold handleMouseEvent
  split
  · exact h
  cases me
  case wheelUp | wheelDown =>
    dsimp only
    rw [(updatePreviewM_frame _).1, (updatePreviewM_frame _).2.1]
    exact moveCursor_inv m _ h
  case right => exact goBack_inv m h
  case left y now =>
    dsimp only
    split
    · exact h
    split
    · split
      · refine enterDirectory_inv _ ?_
        dsimp only
        rename_i hrange _
        exact ⟨hrange.1, h.2⟩
      · rw [(updatePreviewM_frame _).1, (updatePreviewM_frame _).2.1]
        dsimp only
        rename_i hrange _
        exact ⟨hrange.1, h.2⟩
    · exact h

lemma step_inv (m : Model) (e : Msg) (h : 0 ≤ m.cursor ∧ 0 ≤ m.offset) :
    0 ≤ (step m e).1.cursor ∧ 0 ≤ (step m e).1.offset := by
  cases e <;> simp only [step]
  case dirLoaded es =>
    have hv := getVisibleLines_ge ({ m with entries := es, errorMsg := "" } : Model)
    unfold applyDirLoaded
    dsimp only
    constructor
    · rw [(updatePreviewM_frame _).1]
      split
      · split
        · split_ifs <;> dsimp only <;> omega
        · dsimp only; omega
      · split_ifs <;> dsimp only <;> omega
    · rw [(updatePreviewM_frame _).2.1]
      split
      · split
        · split_ifs <;> dsimp only <;> omega
        · dsimp only; omega
      · split_ifs <;> dsimp only <;> omega
  case key k =>
    unfold handleKeyPress
    cases m.mode
    case normal => exact handleNormalMode_inv m k h
    case command => exact handleInputMode_inv m k h
    case input => exact handleInputMode_inv m k h
    case help => exact handleHelpMode_inv m k h
    case terminal => exact handleTerminalMode_inv m k h
  case mouse me => exact handleMouseEvent_inv m me h
  all_goals first
    | exact h
    | (split <;> exact h)
    | (dsimp only; repeat' first | exact h | split)

lemma runModel_inv (m : Model) (msgs : List Msg) (h : 0 ≤ m.cursor ∧ 0 ≤ m.offset) :
    0 ≤ (runModel m msgs).cursor ∧ 0 ≤ (runModel m msgs).offset := by
  induction msgs generalizing m with
  | nil => exact h
  | cons e rest ih => exact ih _ (step_inv m e h)

lemma updatePreviewM_previewGen_le (m : Model) :
    m.previewGen ≤ (updatePreviewM m).1.previewGen := by
  unfold updatePreviewM
  split
  · exact Nat.le.refl
  · dsimp only
    repeat' first | exact Nat.le_succ _ | split

lemma le_updatePreviewM_of_eq (m mm : Model) (h : mm.previewGen = m.previewGen) :
    m.previewGen ≤ (updatePreviewM mm).1.previewGen :=
  h ▸ updatePreviewM_previewGen_le mm

lemma moveCursor_previewGen (m : Model) (d : Int) :
    (moveCursor m d).previewGen = m.previewGen := by
  unfold moveCursor
  repeat' first | rfl | split

lemma enterDirectory_previewGen (m : Model) :
    (enterDirectory m).1.previewGen = m.previewGen := by
  unfold enterDirectory
  repeat' first | rfl | split

lemma le_enterDirectory_of_eq (m mm : Model) (h : mm.previewGen = m.previewGen) :
    m.previewGen ≤ (enterDirectory mm).1.previewGen :=
  le_of_eq (h ▸ (enterDirectory_previewGen mm)).symm

lemma goBack_previewGen (m : Model) :
    (goBack m).1.previewGen = m.previewGen := by
  unfold goBack
  repeat' first | rfl | split

lemma startInput_previewGen (m : Model) (t : InputType) :
    (startInput m t).previewGen = m.previewGen := by
  unfold startInput
  repeat' first | rfl | split

lemma submitInput_previewGen (m : Model) :
    (submitInput m).1.previewGen = m.previewGen := by
  unfold submitInput cancelInput
  dsimp only
  repeat' first | rfl | split

lemma submitTerminalCommand_previewGen (m : Model) :
    (submitTerminalCommand m).1.previewGen = m.previewGen := by
  unfold submitTerminalCommand
  dsimp only
  repeat' first | rfl | split

lemma handleNormalMode_previewGen_le (m : Model) (k : KeyEvent) :
    m.previewGen ≤ (handleNormalMode m k).1.previewGen := by
  cases k <;> simp only [handleNormalMode]
  case up | down | pageUp | pageDown =>
    exact le_updatePreviewM_of_eq m _ (moveCursor_previewGen m _)
  case top => exact le_updatePreviewM_of_eq m _ rfl
  case bottom => split <;> exact le_updatePreviewM_of_eq m _ rfl
  case enter => exact le_of_eq (enterDirectory_previewGen m).symm
  case back => exact le_of_eq (goBack_previewGen m).symm
  case newFile | newDir => exact le_of_eq (startInput_previewGen m _).symm
  case delete =>
    split
    · exact le_of_eq (startInput_previewGen m _).symm
    · exact Nat.le.refl
  case rename =>
    split
    · exact le_of_eq (congrArg Model.previewGen
        (show _ = startInput m InputType.rename from rfl) ▸
          (startInput_previewGen m InputType.rename)).symm
    · exact Nat.le.refl
  all_goals repeat' first | exact Nat.le.refl | split

lemma handleInputMode_previewGen (m : Model) (k : KeyEvent) :
    (handleInputMode m k).1.previewGen = m.previewGen := by
  cases k <;> simp only [handleInputMode]
  case enter => exact submitInput_previewGen m
  all_goals repeat' first | rfl | split

lemma handleHelpMode_previewGen (m : Model) (k : KeyEvent) :
    (handleHelpMode m k).1.previewGen = m.previewGen := by
  cases k <;> simp only [handleHelpMode] <;> rfl

lemma handleTerminalMode_previewGen (m : Model) (k : KeyEvent) :
    (handleTerminalMode m k).1.previewGen = m.previewGen := by
  cases k <;> simp only [handleTerminalMode]
  case enter => exact submitTerminalCommand_previewGen m
  all_goals repeat' first | rfl | split

lemma handleMouseEvent_previewGen_le (m : Model) (me : MouseEvent) :
    m.previewGen ≤ (handleMouseEvent m me).1.previewGen := by
  unfold handleMouseEvent
  split
  · exact Nat.le.refl
  cases me
  case wheelUp | wheelDown =>
    exact le_updatePreviewM_of_eq m _ (moveCursor_previewGen m _)
  case right => exact le_of_eq (goBack_previewGen m).symm
  case left =>
    dsimp only
    split
    · exact Nat.le.refl
    split
    · split
      · exact le_enterDirectory_of_eq m _ rfl
      · exact le_updatePreviewM_of_eq m _ rfl
    · exact Nat.le.refl

lemma applyDirLoaded_previewGen_le (m : Model) (es : List Entry) :
    m.previewGen ≤ (applyDirLoaded m es).1.previewGen := by
  unfold applyDirLoaded
  dsimp only
  repeat' first | exact le_updatePreviewM_of_eq m _ rfl | split

lemma step_previewGen_le (m : Model) (e : Msg) :
    m.previewGen ≤ (step m e).1.previewGen := by
  cases e <;> simp only [step]
  case dirLoaded es => exact applyDirLoaded_previewGen_le m es
  case key k =>
    unfold handleKeyPress
    cases m.mode
    case normal => exact handleNormalMode_previewGen_le m k
    case command => exact le_of_eq (handleInputMode_previewGen m k).symm
    case input => exact le_of_eq (handleInputMode_previewGen m k).symm
    case help => exact le_of_eq (handleHelpMode_previewGen m k).symm
    case terminal => exact le_of_eq (handleTerminalMode_previewGen m k).symm
  case mouse me => exact handleMouseEvent_previewGen_le m me
  all_goals repeat' first | exact Nat.le.refl | split

lemma runModel_previewGen_le (m : Model) (msgs : List Msg) :
    m.previewGen ≤ (runModel m msgs).previewGen := by
  induction msgs generalizing m with
  | nil => exact Nat.le.refl
  | cons e rest ih =>
    calc m.previewGen ≤ (step m e).1.previewGen := step_previewGen_le m e
    _ ≤ _ := ih _

lemma step_previewLoaded_ne (m : Model) (c : String) (err : Option String)
    (g : Nat) (h : g ≠ m.previewGen) :
    step m (.previewLoaded c err g) = (m, []) := by
  dsimp only [step]
  rw [if_neg h]

lemma step_previewLoaded_eq (m : Model) (c : String) (err : Option String) :
    step m (.previewLoaded c err m.previewGen) =
      ({ m with previewContent := c, previewError := err }, []) := by
  dsimp only [step]
  rw [if_pos rfl]

lemma updatePreviewM_disp (m mm : Model) (hsp : mm.showPreview = m.showPreview)
    (hg : mm.previewGen = m.previewGen) :
    (updatePreviewM mm).1.previewGen ≠ m.previewGen →
    m.showPreview = true ∧
    ((updatePreviewM mm).2 = [Cmd.previewEmpty ((updatePreviewM mm).1.previewGen)] ∨
     ∃ p, (updatePreviewM mm).2 = [Cmd.previewFile ((updatePreviewM mm).1.previewGen) p]) := by
  unfold updatePreviewM
  split
  · intro hne
    exact absurd hg hne
  · rename_i htrue
    intro _
    have hsp' : m.showPreview = true := by
      rw [← hsp]
      revert htrue
      cases mm.showPreview <;> simp
    refine ⟨hsp', ?_⟩
    dsimp only
    split
    · exact Or.inl rfl
    · split
      · exact Or.inl rfl
      · exact Or.inr ⟨_, rfl⟩

lemma step_gen_dispatch (m : Model) (e : Msg) :
    (step m e).1.previewGen ≠ m.previewGen →
    m.showPreview = true ∧
    ((step m e).2 = [Cmd.previewEmpty ((step m e).1.previewGen)] ∨
     ∃ p, (step m e).2 = [Cmd.previewFile ((step m e).1.previewGen) p]) := by
  cases e <;> dsimp only [step]
  case winSize w h => intro hne; exact absurd rfl hne
  case dirLoaded es =>
    unfold applyDirLoaded
    dsimp only
    split
    · split
      · split_ifs <;> exact updatePreviewM_disp m _ rfl rfl
      · exact updatePreviewM_disp m _ rfl rfl
    · split_ifs <;> exact updatePreviewM_disp m _ rfl rfl
  case previewLoaded c err g =>
    split <;> (intro hne; exact absurd rfl hne)
  case cmdExecuted idx output error =>
    cases idx <;> (intro hne; exact absurd rfl hne)
  case errLoaded s => intro hne; exact absurd rfl hne
  case mouse me =>
    unfold handleMouseEvent
    split
    · intro hne; exact absurd rfl hne
    cases me <;> dsimp only
    case wheelUp | wheelDown =>
      exact updatePreviewM_disp m _ ((moveCursor_frame m _).2.2.1) (moveCursor_previewGen m _)
    case right =>
      intro hne; exact absurd (goBack_previewGen m) hne
    case left y now =>
      split
      · intro hne; exact absurd rfl hne
      split
      · split
        · intro hne
          exact absurd ((enterDirectory_previewGen _).trans rfl) hne
        · exact updatePreviewM_disp m _ rfl rfl
      · intro hne; exact absurd rfl hne
  case key k =>
    unfold handleKeyPress
    cases m.mode
    case command =>
      intro hne; exact absurd (handleInputMode_previewGen m k) hne
    case input =>
      intro hne; exact absurd (handleInputMode_previewGen m k) hne
    case help =>
      intro hne; exact absurd (handleHelpMode_previewGen m k) hne
    case terminal =>
      intro hne; exact absurd (handleTerminalMode_previewGen m k) hne
    case normal =>
      cases k <;> dsimp only [handleNormalMode]
      case up | down | pageUp | pageDown =>
        exact updatePreviewM_disp m _ ((moveCursor_frame m _).2.2.1) (moveCursor_previewGen m _)
      case top => exact updatePreviewM_disp m _ rfl rfl
      case bottom => split <;> exact updatePreviewM_disp m _ rfl rfl
      case enter =>
        intro hne; exact absurd (enterDirectory_previewGen m) hne
      case back =>
        intro hne; exact absurd (goBack_previewGen m) hne
      case newFile | newDir =>
        intro hne; exact absurd (startInput_previewGen m _) hne
      case delete =>
        split <;> (intro hne)
        · exact absurd (startInput_previewGen m _) hne
        · exact absurd rfl hne
      case rename =>
        split <;> (intro hne)
        · exact absurd ((rfl : ({ startInput m InputType.rename with
            textValue := _ } : Model).previewGen = (startInput m InputType.rename).previewGen).trans
            (startInput_previewGen m _)) hne
        · exact absurd rfl hne
      case copy =>
        split <;> (intro hne; exact absurd rfl hne)
      case commandKey =>
        split <;> (intro hne; exact absurd rfl hne)
      case escape =>
        split <;> (intro hne; exact absurd rfl hne)
      all_goals (intro hne; exact absurd rfl hne)

lemma applyDirLoaded_bounds (m : Model) (es : List Entry)
    (h0 : 0 ≤ m.cursor) (hpd : m.previousDir = "") (hne : es ≠ []) :
    0 ≤ (applyDirLoaded m es).1.cursor ∧
    (applyDirLoaded m es).1.cursor < (es.length : Int) := by
  have hlen : 0 < es.length := List.length_pos.mpr hne
  unfold applyDirLoaded
  dsimp only
  rw [if_neg (by simp [hpd])]
  constructor
  · rw [(updatePreviewM_frame _).1]
    split_ifs <;> dsimp only <;> omega
  · rw [(updatePreviewM_frame _).1]
    split_ifs <;> dsimp only <;> omega

lemma updAt_length (l : List TerminalEntry) (i : Nat) (o e : String) :
    (updAt l i o e).length = l.length := by
  induction l generalizing i with
  | nil => rfl
  | cons t ts ih =>
    cases i with
    | zero => rfl
    | succ n => simp [updAt, ih]

lemma updAt_get? (l : List TerminalEntry) (i j : Nat) (o e : String) :
    (updAt l i o e)[j]? =
      if j = i then (l[j]?).map (fun t => { t with Output := o, Error := e })
      else l[j]? := by
  induction l generalizing i j with
  | nil => simp [updAt]
  | cons t ts ih =>
    cases i with
    | zero =>
      cases j with
      | zero => simp [updAt]
      | succ jn => simp [updAt]
    | succ n =>
      cases j with
      | zero => simp [updAt]
      | succ jn =>
        simp only [updAt, List.getElem?_cons_succ, ih]
        by_cases hji : jn = n <;> simp [hji]

-- history/counter frame through the handlers that do not touch them
lemma updatePreviewM_hist (m : Model) :
    (updatePreviewM m).1.terminalHistory = m.terminalHistory ∧
    (updatePreviewM m).1.commandCounter = m.commandCounter ∧
    (updatePreviewM m).1.currentPath = m.currentPath ∧
    (updatePreviewM m).1.mode = m.mode ∧
    (updatePreviewM m).1.textValue = m.textValue := by
  unfold updatePreviewM
  split
  · exact ⟨rfl, rfl, rfl, rfl, rfl⟩
  · dsimp only
    repeat' first | exact ⟨rfl, rfl, rfl, rfl, rfl⟩ | split

lemma submitTerminalCommand_shape (m : Model) :
    ((submitTerminalCommand m).1.terminalHistory = m.terminalHistory ∧
     (submitTerminalCommand m).1.commandCounter = m.commandCounter) ∨
    ((submitTerminalCommand m).1.terminalHistory = m.terminalHistory ++
        [{ Number := m.commandCounter, Path := m.currentPath,
           Command := goTrimSpace m.textValue, Output := "", Error := "" }] ∧
     (submitTerminalCommand m).1.commandCounter = m.commandCounter + 1) := by
  unfold submitTerminalCommand
  dsimp only
  split
  · exact Or.inl ⟨rfl, rfl⟩
  · exact Or.inr ⟨rfl, rfl⟩

lemma step_hist_cases (m : Model) (e : Msg) :
    ((step m e).1.terminalHistory = m.terminalHistory ∧
     (step m e).1.commandCounter = m.commandCounter) ∨
    ((step m e).1.terminalHistory = m.terminalHistory ++
        [{ Number := m.commandCounter, Path := m.currentPath,
           Command := goTrimSpace m.textValue, Output := "", Error := "" }] ∧
     (step m e).1.commandCounter = m.commandCounter + 1) ∨
    (∃ i o err, (step m e).1.terminalHistory = updAt m.terminalHistory i o err ∧
     (step m e).1.commandCounter = m.commandCounter) := by
  cases e <;> dsimp only [step]
  case winSize w h => exact Or.inl ⟨rfl, rfl⟩
  case dirLoaded es =>
    refine Or.inl ?_
    unfold applyDirLoaded
    dsimp only
    constructor
    · rw [(updatePreviewM_hist _).1]
      repeat' first | rfl | split
    · rw [(updatePreviewM_hist _).2.1]
      repeat' first | rfl | split
  case previewLoaded c err g => split <;> exact Or.inl ⟨rfl, rfl⟩
  case cmdExecuted idx output error =>
    cases idx with
    | none => exact Or.inl ⟨rfl, rfl⟩
    | some i => exact Or.inr (Or.inr ⟨i, output, error, rfl, rfl⟩)
  case errLoaded s => exact Or.inl ⟨rfl, rfl⟩
  case mouse me =>
    refine Or.inl ?_
    unfold handleMouseEvent
    split
    · exact ⟨rfl, rfl⟩
    cases me <;> dsimp only
    case wheelUp | wheelDown =>
      constructor
      · rw [(updatePreviewM_hist _).1]
        unfold moveCursor
        repeat' first | rfl | split
      · rw [(updatePreviewM_hist _).2.1]
        unfold moveCursor
        repeat' first | rfl | split
    case right =>
      unfold goBack
      repeat' first | exact ⟨rfl, rfl⟩ | split
    case left y now =>
      split
      · exact ⟨rfl, rfl⟩
      split
      · split
        · unfold enterDirectory
          repeat' first | exact ⟨rfl, rfl⟩ | split
        · constructor
          · rw [(updatePreviewM_hist _).1]
          · rw [(updatePreviewM_hist _).2.1]
      · exact ⟨rfl, rfl⟩
  case key k =>
    unfold handleKeyPress
    cases m.mode
    case normal =>
      refine Or.inl ?_
      cases k <;> dsimp only [handleNormalMode]
      case up | down | pageUp | pageDown =>
        constructor
        · rw [(updatePreviewM_hist _).1]
          unfold moveCursor
          repeat' first | rfl | split
        · rw [(updatePreviewM_hist _).2.1]
          unfold moveCursor
          repeat' first | rfl | split
      case top =>
        exact ⟨(updatePreviewM_hist _).1, (updatePreviewM_hist _).2.1⟩
      case bottom =>
        split <;> exact ⟨(updatePreviewM_hist _).1, (updatePreviewM_hist _).2.1⟩
      case enter =>
        unfold enterDirectory
        repeat' first | exact ⟨rfl, rfl⟩ | split
      case back =>
        unfold goBack
        repeat' first | exact ⟨rfl, rfl⟩ | split
      case newFile | newDir =>
        unfold startInput
        repeat' first | exact ⟨rfl, rfl⟩ | split
      case delete | rename =>
        unfold startInput
        repeat' first | exact ⟨rfl, rfl⟩ | split
      case copy =>
        repeat' first | exact ⟨rfl, rfl⟩ | split
      case commandKey => split <;> exact ⟨rfl, rfl⟩
      case escape => split <;> exact ⟨rfl, rfl⟩
      all_goals exact ⟨rfl, rfl⟩
    case command =>
      refine Or.inl ?_
      cases k <;> dsimp only [handleInputMode]
      case enter =>
        unfold submitInput cancelInput
        dsimp only
        repeat' first | exact ⟨rfl, rfl⟩ | split
      case escape => split <;> exact ⟨rfl, rfl⟩
      all_goals exact ⟨rfl, rfl⟩
    case input =>
      refine Or.inl ?_
      cases k <;> dsimp only [handleInputMode]
      case enter =>
        unfold submitInput cancelInput
        dsimp only
        repeat' first | exact ⟨rfl, rfl⟩ | split
      case escape => split <;> exact ⟨rfl, rfl⟩
      all_goals exact ⟨rfl, rfl⟩
    case help =>
      refine Or.inl ?_
      cases k <;> dsimp only [handleHelpMode] <;> exact ⟨rfl, rfl⟩
    case terminal =>
      cases k <;> dsimp only [handleTerminalMode]
      case enter =>
        rcases submitTerminalCommand_shape m with h | h
        · exact Or.inl h
        · exact Or.inr (Or.inl h)
      case up | down =>
        refine Or.inl ?_
        split <;> exact ⟨rfl, rfl⟩
      case pageDown =>
        refine Or.inl ?_
        dsimp only
        exact ⟨rfl, rfl⟩
      all_goals exact Or.inl ⟨rfl, rfl⟩

lemma histInv_step (m : Model) (e : Msg) (h : histInvL m) : histInvL (step m e).1 := by
  unfold histInvL at h ⊢
  rcases step_hist_cases m e with ⟨h1, h2⟩ | ⟨h1, h2⟩ | ⟨i, o, err, h1, h2⟩
  · refine ⟨h2.trans (h.1.trans (congrArg List.length h1.symm)), ?_⟩
    intro i t ht
    rw [h1] at ht
    exact h.2 i t ht
  · constructor
    · rw [h2, h1, List.length_append, h.1]
      rfl
    · intro i t ht
      rw [h1, List.getElem?_append] at ht
      by_cases hi : i < m.terminalHistory.length
      · rw [if_pos hi] at ht
        exact h.2 i t ht
      · rw [if_neg hi] at ht
        by_cases hie : i = m.terminalHistory.length
        · subst hie
          simp at ht
          rw [← ht]
          exact h.1
        · rw [show i - m.terminalHistory.length =
              (i - m.terminalHistory.length - 1) + 1 from by omega] at ht
          simp at ht
  · constructor
    · rw [h2, h1, updAt_length, h.1]
    · intro j t ht
      rw [h1, updAt_get? m.terminalHistory i j o err] at ht
      by_cases hji : j = i
      · rw [if_pos hji] at ht
        cases hh : m.terminalHistory[j]? with
        | none => rw [hh] at ht; cases ht
        | some t0 =>
          rw [hh] at ht
          simp at ht
          have := h.2 j t0 hh
          rw [← ht]
          exact this
      · rw [if_neg hji] at ht
        exact h.2 j t ht

lemma runModel_histInv (m : Model) (msgs : List Msg) (h : histInvL m) :
    histInvL (runModel m msgs) := by
  induction msgs generalizing m with
  | nil => exact h
  | cons e rest ih => exact ih _ (histInv_step m e h)

lemma step_hist_frame (m : Model) (e : Msg) :
    m.terminalHistory.length ≤ (step m e).1.terminalHistory.length ∧
    ∀ i, i < m.terminalHistory.length →
      ((step m e).1.terminalHistory[i]?.map TerminalEntry.Number =
        m.terminalHistory[i]?.map TerminalEntry.Number ∧
       (step m e).1.terminalHistory[i]?.map TerminalEntry.Path =
        m.terminalHistory[i]?.map TerminalEntry.Path ∧
       (step m e).1.terminalHistory[i]?.map TerminalEntry.Command =
        m.terminalHistory[i]?.map TerminalEntry.Command) := by
  rcases step_hist_cases m e with ⟨h1, _⟩ | ⟨h1, _⟩ | ⟨i, o, err, h1, _⟩
  · rw [h1]
    exact ⟨le_refl _, fun i _ => ⟨rfl, rfl, rfl⟩⟩
  · rw [h1]
    constructor
    · simp
    · intro i hi
      rw [List.getElem?_append, if_pos hi]
      exact ⟨rfl, rfl, rfl⟩
  · rw [h1]
    constructor
    · rw [updAt_length]
    · intro j hj
      rw [updAt_get? m.terminalHistory i j o err]
      by_cases hji : j = i
      · rw [if_pos hji]
        cases hh : m.terminalHistory[j]? with
        | none => simp
        | some t0 => simp
      · rw [if_neg hji]
        exact ⟨rfl, rfl, rfl⟩

lemma submitTerminal_append (m : Model) (hmode : m.mode = Mode.terminal)
    (hne : goTrimSpace m.textValue ≠ "") :
    (step m (.key .enter)).1.terminalHistory = m.terminalHistory ++
      [{ Number := m.commandCounter, Path := m.currentPath,
         Command := goTrimSpace m.textValue, Output := "", Error := "" }] ∧
    (step m (.key .enter)).1.commandCounter = m.commandCounter + 1 ∧
    (step m (.key .enter)).2 =
      [Cmd.execCmd (goTrimSpace m.textValue) (some m.terminalHistory.length)] := by
  dsimp only [step]
  unfold handleKeyPress
  rw [hmode]
  dsimp only [handleTerminalMode]
  unfold submitTerminalCommand
  dsimp only
  rw [if_neg hne]
  exact ⟨rfl, rfl, rfl⟩

lemma splitSpAux_spec (l : List Char) : ∀ cur : List Char,
    (cur = [] → splitSpAux cur l = splitSp l) ∧
    (cur ≠ [] → splitSpAux cur l =
      (cur ++ l.takeWhile (fun d => d ≠ ' ')) ::
        splitSp (l.dropWhile (fun d => d ≠ ' '))) := by
  induction l with
  | nil =>
    intro cur
    constructor
    · intro h
      simp [splitSpAux, splitSp, h]
    · intro h
      simp [splitSpAux, splitSp, h]
  | cons c rest ih =>
    intro cur
    by_cases hc : c = ' '
    · subst hc
      constructor
      · intro h
        subst h
        simp only [splitSpAux, splitSp, if_pos rfl]
        exact (ih []).1 rfl
      · intro h
        simp only [splitSpAux, splitSp, if_pos rfl, if_neg h, List.takeWhile_cons,
          List.dropWhile_cons]
        rw [(ih []).1 rfl]
        simp [splitSp]
    · constructor
      · intro h
        subst h
        simp only [splitSpAux, splitSp, if_neg hc]
        rw [show ([] : List Char) ++ [c] = [c] from rfl, (ih [c]).2 (by simp)]
        simp [hc]
      · intro h
        simp only [splitSpAux, if_neg hc]
        rw [(ih (cur ++ [c])).2 (by simp)]
        simp only [List.takeWhile_cons, List.dropWhile_cons]
        simp [hc]

lemma parseLoop_quoteFree (l : List Char)
    (hq : ∀ c ∈ l, c ≠ '"' ∧ c ≠ '\'') :
    ∀ (args : List (List Char)) (cur : List Char) (q : Char),
      parseLoop l args cur false q = args ++ splitSpAux cur l := by
  induction l with
  | nil =>
    intro args cur q
    by_cases h : cur = []
    · simp [parseLoop, splitSpAux, h]
    · simp [parseLoop, splitSpAux, h]
  | cons c rest ih =>
    intro args cur q
    have hc := hq c (by simp)
    have hrest : ∀ d ∈ rest, d ≠ '"' ∧ d ≠ '\'' := fun d hd => hq d (by simp [hd])
    simp only [parseLoop, splitSpAux]
    rw [if_neg (not_or.mpr ⟨hc.1, hc.2⟩)]
    by_cases hsp : c = ' '
    · rw [if_pos (show c = ' ' ∧ (!false) = true from ⟨hsp, rfl⟩), if_pos hsp]
      by_cases hcur : cur = []
      · subst hcur
        rw [if_neg (by simp), if_pos rfl]
        exact ih hrest args [] q
      · rw [if_pos hcur, if_neg hcur]
        rw [ih hrest (args ++ [cur]) [] q]
        simp
    · rw [if_neg (by simp [hsp]), if_neg hsp]
      exact ih hrest args (cur ++ [c]) q

lemma updatePreviewM_off (m : Model) (h : m.showPreview = false) :
    updatePreviewM m = (m, []) := by
  unfold updatePreviewM
  rw [h]
  rfl

lemma step_move_helper (m : Model) (d : Int) (hne : m.entries ≠ []) :
    0 ≤ (updatePreviewM (moveCursor m d)).1.cursor ∧
    (updatePreviewM (moveCursor m d)).1.cursor <
      (((updatePreviewM (moveCursor m d)).1.entries.length : Int)) ∧
    (updatePreviewM (moveCursor m d)).1.entries = m.entries := by
  rw [(updatePreviewM_frame _).1, (updatePreviewM_frame _).2.2.1,
      (moveCursor_frame _ _).1]
  have hb := moveCursor_bounds m d hne
  exact ⟨hb.1, hb.2.1, rfl⟩

-- C4 amended part 2: cursor-move keys in normal mode restore the bounds.
lemma step_moveKeys_bounds (m : Model) (k : KeyEvent)
    (hmode : m.mode = Mode.normal) (hne : m.entries ≠ [])
    (hk : k ∈ [KeyEvent.up, KeyEvent.down, KeyEvent.pageUp, KeyEvent.pageDown,
               KeyEvent.top, KeyEvent.bottom]) :
    0 ≤ (step m (.key k)).1.cursor ∧
    (step m (.key k)).1.cursor < (((step m (.key k)).1.entries.length : Int)) ∧
    (step m (.key k)).1.entries = m.entries := by
  have hlen : 0 < m.entries.length := List.length_pos.mpr hne
  dsimp only [step]
  unfold handleKeyPress
  rw [hmode]
  fin_cases hk <;> dsimp only [handleNormalMode]
  · exact step_move_helper m _ hne
  · exact step_move_helper m _ hne
  · exact step_move_helper m _ hne
  · exact step_move_helper m _ hne
  · rw [(updatePreviewM_frame _).1, (updatePreviewM_frame _).2.2.1]
    exact ⟨le_refl 0, by dsimp only; omega, rfl⟩
  · rw [(updatePreviewM_frame _).1, (updatePreviewM_frame _).2.2.1]
    rw [if_pos hlen]
    exact ⟨by dsimp only; omega, by dsimp only; omega, rfl⟩

lemma step_move_window_helper (m : Model) (d : Int) (hne : m.entries ≠ []) :
    (updatePreviewM (moveCursor m d)).1.offset ≤ (updatePreviewM (moveCursor m d)).1.cursor ∧
    (updatePreviewM (moveCursor m d)).1.cursor <
      (updatePreviewM (moveCursor m d)).1.offset +
        getVisibleLines (updatePreviewM (moveCursor m d)).1 := by
  rw [(updatePreviewM_frame _).1, (updatePreviewM_frame _).2.1]
  rw [getVisibleLines_congr (updatePreviewM (moveCursor m d)).1 m
    (((updatePreviewM_frame _).2.2.2).trans (moveCursor_frame m d).2.1)]
  have hb := moveCursor_bounds m d hne
  exact ⟨hb.2.2.1, hb.2.2.2⟩

-- C5 amended: all cursor moves except to-end re-establish the window property.
lemma step_moveKeys_window (m : Model) (k : KeyEvent)
    (hmode : m.mode = Mode.normal) (hne : m.entries ≠ [])
    (hk : k ∈ [KeyEvent.up, KeyEvent.down, KeyEvent.pageUp, KeyEvent.pageDown,
               KeyEvent.top]) :
    (step m (.key k)).1.offset ≤ (step m (.key k)).1.cursor ∧
    (step m (.key k)).1.cursor <
      (step m (.key k)).1.offset + getVisibleLines (step m (.key k)).1 := by
  dsimp only [step]
  unfold handleKeyPress
  rw [hmode]
  fin_cases hk <;> dsimp only [handleNormalMode]
  · exact step_move_window_helper m _ hne
  · exact step_move_window_helper m _ hne
  · exact step_move_window_helper m _ hne
  · exact step_move_window_helper m _ hne
  · rw [(updatePreviewM_frame _).1, (updatePreviewM_frame _).2.1]
    have h5 := getVisibleLines_ge (updatePreviewM
      ({ m with cursor := 0, offset := 0 } : Model)).1
    dsimp only
    omega

-- C10 part 1: with the preview pane hidden, a cursor move dispatches nothing
-- and leaves the preview state untouched.
lemma step_moveKeys_preview_off (m : Model) (k : KeyEvent)
    (hmode : m.mode = Mode.normal) (hsp : m.showPreview = false)
    (hk : k ∈ [KeyEvent.up, KeyEvent.down, KeyEvent.pageUp, KeyEvent.pageDown,
               KeyEvent.top, KeyEvent.bottom]) :
    (step m (.key k)).1.previewGen = m.previewGen ∧
    (step m (.key k)).1.previewContent = m.previewContent ∧
    (step m (.key k)).1.previewError = m.previewError ∧
    (step m (.key k)).2 = [] := by
  dsimp only [step]
  unfold handleKeyPress
  rw [hmode]
  fin_cases hk <;> dsimp only [handleNormalMode]
  · rw [updatePreviewM_off _ (((moveCursor_frame m _).2.2.1).trans hsp)]
    have hf := moveCursor_frame m (-1)
    exact ⟨hf.2.2.2.1, hf.2.2.2.2.1, hf.2.2.2.2.2.1, rfl⟩
  · rw [updatePreviewM_off _ (((moveCursor_frame m _).2.2.1).trans hsp)]
    have hf := moveCursor_frame m 1
    exact ⟨hf.2.2.2.1, hf.2.2.2.2.1, hf.2.2.2.2.2.1, rfl⟩
  · rw [updatePreviewM_off _ (((moveCursor_frame m _).2.2.1).trans hsp)]
    have hf := moveCursor_frame m (-10)
    exact ⟨hf.2.2.2.1, hf.2.2.2.2.1, hf.2.2.2.2.2.1, rfl⟩
  · rw [updatePreviewM_off _ (((moveCursor_frame m _).2.2.1).trans hsp)]
    have hf := moveCursor_frame m 10
    exact ⟨hf.2.2.2.1, hf.2.2.2.2.1, hf.2.2.2.2.2.1, rfl⟩
  · rw [updatePreviewM_off ({ m with cursor := 0, offset := 0 } : Model) hsp]
    exact ⟨rfl, rfl, rfl, rfl⟩
  · split
    · rw [updatePreviewM_off
        ({ m with cursor := (m.entries.length : Int) - 1 } : Model) hsp]
      exact ⟨rfl, rfl, rfl, rfl⟩
    · rw [updatePreviewM_off m hsp]
      exact ⟨rfl, rfl, rfl, rfl⟩

/-- C1: preview generation guard.  (i) A completion message whose
generation tag differs from the Model's current `previewGen` is discarded:
it changes neither `previewContent` nor `previewError`.  (ii) A completion
tagged with the current generation is applied.  (iii) The generation
counter never decreases over any processed message sequence.  (iv) Hence
once generation G2 has been dispatched (the counter then reads G2, so any
state `m` from that point has `G1 < G2 ≤ m.previewGen`), a completion for
an older generation G1 is discarded no matter how many messages intervene
or in which order the two completions arrive — the displayed preview can
only reflect the newest dispatched generation. -/
theorem c1_preview_generation_guard :
    (∀ (m : Model) (c : String) (err : Option String) (g : Nat),
      g ≠ m.previewGen →
      (step m (.previewLoaded c err g)).1.previewContent = m.previewContent ∧
      (step m (.previewLoaded c err g)).1.previewError = m.previewError) ∧
    (∀ (m : Model) (c : String) (err : Option String),
      (step m (.previewLoaded c err m.previewGen)).1.previewContent = c ∧
      (step m (.previewLoaded c err m.previewGen)).1.previewError = err) ∧
    (∀ (m : Model) (msgs : List Msg),
      m.previewGen ≤ (runModel m msgs).previewGen) ∧
    (∀ (m : Model) (msgs : List Msg) (g1 : Nat) (c : String) (err : Option String),
      g1 < m.previewGen →
      (step (runModel m msgs) (.previewLoaded c err g1)).1.previewContent =
        (runModel m msgs).previewContent ∧
      (step (runModel m msgs) (.previewLoaded c err g1)).1.previewError =
        (runModel m msgs).previewError) := by
  refine ⟨?_, ?_, ?_, ?_⟩
  · intro m c err g h
    rw [step_previewLoaded_ne m c err g h]
    exact ⟨rfl, rfl⟩
  · intro m c err
    rw [step_previewLoaded_eq m c err]
    exact ⟨rfl, rfl⟩
  · exact runModel_previewGen_le
  · intro m msgs g1 c err h
    have hle := runModel_previewGen_le m msgs
    have hne : g1 ≠ (runModel m msgs).previewGen := by omega
    rw [step_previewLoaded_ne _ c err g1 hne]
    exact ⟨rfl, rfl⟩

/-- C1 witness: with the counter at 5 (generation 5 dispatched) and one
further event processed, a stale completion tagged 3 leaves the displayed
preview content unchanged. -/
theorem c1_preview_generation_guard_witness :
    (step (runModel { initModel with previewGen := 5 } [Msg.key KeyEvent.down])
        (.previewLoaded "stale" none 3)).1.previewContent =
      (runModel { initModel with previewGen := 5 }
        [Msg.key KeyEvent.down]).previewContent ∧
    3 < (5 : Nat) :=
  ⟨(c1_preview_generation_guard.2.2.2 { initModel with previewGen := 5 }
      [Msg.key KeyEvent.down] 3 "stale" none (by decide)).1, by decide⟩

/-- C2 [code bug]: the claim says a 6 MiB image file is stat-checked and
yields the "too large to preview" message with no error and no decode.
In the source the `imageExts` map literal is empty (the image extensions
are listed in `binaryExts` instead), so (i) no filename is ever classified
as an image, (ii) `/photo.png` is classified `PreviewBinary`,
(iii) `GeneratePreview` takes the hex-dump path for it, even though
(iv) the 5 MiB guard inside the unreachable `GenerateImagePreview` would
produce exactly the claimed message, and (v) the produced preview is not
that message. -/
theorem c2_large_image_misrouted :
    (∀ name : String, (DetectFileType name).type ≠ PreviewType.image) ∧
    DetectFileType "/photo.png" =
      { type := PreviewType.binary, description := "Binary file" } ∧
    GeneratePreview fsC2 "/photo.png" = GenerateBinaryPreview fsC2 "/photo.png" 1024 ∧
    GenerateImagePreview fsC2 "/photo.png" =
      Except.ok (imageTooLargeMsg (6 * 1024 * 1024)) ∧
    GeneratePreview fsC2 "/photo.png" ≠
      Except.ok (imageTooLargeMsg (6 * 1024 * 1024)) := by
  refine ⟨?_, by decide, rfl, rfl, ?_⟩
  · intro name
    unfold DetectFileType
    dsimp only
    split_ifs with h1 h2 h3 h4
    · exact absurd h1 (by simp [List.contains])
    all_goals decide
  · intro h
    exact absurd (Except.ok.inj h) (by decide)

/-- C3 [code bug]: directories do short-circuit to empty content with no
error (the dispatched task immediately completes with `("", nil)` and the
dispatched command list is exactly that trivial task), but a zero-byte
file does not: `isValidUTF8` computes `0.0/0.0 = NaN` on empty input and
`NaN < 0.05` is false, so the text path returns the
"[Binary file - cannot preview as text]" message instead of empty
content (the error is still nil). -/
theorem c3_zero_byte_preview :
    isValidUTF8 [] = false ∧
    GenerateTextPreview fsC3 "/empty.txt" 10240 =
      Except.ok "[Binary file - cannot preview as text]" ∧
    GeneratePreview fsC3 "/empty.txt" =
      Except.ok "[Binary file - cannot preview as text]" ∧
    (∀ m : Model, m.showPreview = true →
      ∀ e : Entry, currentEntry m = some e → e.IsDir = true →
      (updatePreviewM m).2 = [Cmd.previewEmpty (m.previewGen + 1)]) ∧
    (∀ g : Nat, runPreviewEmptyTask g = Msg.previewLoaded "" none g) := by
  refine ⟨by decide, rfl, rfl, ?_, fun g => rfl⟩
  intro m hsp e he hdir
  unfold updatePreviewM
  rw [if_neg (by rw [hsp]; decide)]
  dsimp only
  rw [show currentEntry { m with previewGen := m.previewGen + 1 } = currentEntry m
    from rfl, he]
  dsimp only
  rw [hdir]
  rfl

/-- C3 witness: a model with a selected directory dispatches exactly the
trivial empty-preview task. -/
theorem c3_zero_byte_preview_witness :
    (updatePreviewM mC3dir).2 = [Cmd.previewEmpty (mC3dir.previewGen + 1)] :=
  c3_zero_byte_preview.2.2.2.1 mC3dir rfl (sampleDir "docs" "/docs") (by decide) rfl

/-- C4 counterexample: the claimed invariant "`cursor = 0` whenever
`entries` is empty, and `cursor < len(entries)` when non-empty" fails on
reachable traces.  After `traceEmptyReload` the entry list is empty but
the cursor still reads 3; after `traceStaleBack` (a reload completing
while the remembered previous-directory name is absent from the new
one-element list) the cursor reads 2 on a list of length 1. -/
theorem c4_cursor_bounds_cex :
    ((runModel initModel traceEmptyReload).entries = [] ∧
     (runModel initModel traceEmptyReload).cursor = 3) ∧
    ((runModel initModel traceStaleBack).entries.length = 1 ∧
     (runModel initModel traceStaleBack).cursor = 2) := by
  refine ⟨⟨?_, ?_⟩, ?_, ?_⟩ <;> decide

/-- C4 [corrected]: after every processing step the cursor and scroll
offset are non-negative; every cursor-move key handled in normal mode on a
non-empty entry list re-establishes `0 ≤ cursor < len(entries)` (and does
not change the list); and a directory-load completion with no remembered
previous-directory name clamps the cursor into a non-empty new list.  (A
load completing with an empty list, or with a remembered name missing from
the new list, may leave a stale in-range-of-the-old-list cursor — see the
counterexample.) -/
theorem c4_cursor_bounds_amended :
    (∀ msgs : List Msg,
      0 ≤ (runModel initModel msgs).cursor ∧ 0 ≤ (runModel initModel msgs).offset) ∧
    (∀ (m : Model) (k : KeyEvent), m.mode = Mode.normal → m.entries ≠ [] →
      k ∈ [KeyEvent.up, KeyEvent.down, KeyEvent.pageUp, KeyEvent.pageDown,
           KeyEvent.top, KeyEvent.bottom] →
      0 ≤ (step m (.key k)).1.cursor ∧
      (step m (.key k)).1.cursor < (((step m (.key k)).1.entries.length : Int)) ∧
      (step m (.key k)).1.entries = m.entries) ∧
    (∀ (m : Model) (es : List Entry),
      0 ≤ m.cursor → m.previousDir = "" → es ≠ [] →
      0 ≤ (step m (.dirLoaded es)).1.cursor ∧
      (step m (.dirLoaded es)).1.cursor < (es.length : Int)) := by
  refine ⟨?_, ?_, ?_⟩
  · intro msgs
    exact runModel_inv initModel msgs ⟨le_refl 0, le_refl 0⟩
  · intro m k hmode hne hk
    exact step_moveKeys_bounds m k hmode hne hk
  · intro m es h0 hpd hne
    exact applyDirLoaded_bounds m es h0 hpd hne

/-- C4 witness: the non-negativity invariant on a concrete trace and the
move-key bounds on a concrete three-entry model. -/
theorem c4_cursor_bounds_amended_witness :
    (0 ≤ (runModel initModel traceEmptyReload).cursor ∧
     0 ≤ (runModel initModel traceEmptyReload).offset) ∧
    (0 ≤ (step mThree (.key KeyEvent.down)).1.cursor ∧
     (step mThree (.key KeyEvent.down)).1.cursor <
       (((step mThree (.key KeyEvent.down)).1.entries.length : Int)) ∧
     (step mThree (.key KeyEvent.down)).1.entries = mThree.entries) :=
  ⟨c4_cursor_bounds_amended.1 traceEmptyReload,
   c4_cursor_bounds_amended.2.1 mThree KeyEvent.down rfl (by decide) (by decide)⟩

/-- C5 counterexample: the to-end key sets the cursor to the last entry
but never adjusts the scroll offset.  On a 13-row viewport (5 visible
lines) with twenty entries, pressing End leaves cursor 19 with offset 0,
violating `offset ≤ cursor < offset + visibleLines`. -/
theorem c5_scroll_window_cex :
    (runModel initModel traceToEnd).cursor = 19 ∧
    (runModel initModel traceToEnd).offset = 0 ∧
    getVisibleLines (runModel initModel traceToEnd) = 5 ∧
    ¬((runModel initModel traceToEnd).cursor <
      (runModel initModel traceToEnd).offset +
        getVisibleLines (runModel initModel traceToEnd)) := by
  refine ⟨?_, ?_, ?_, ?_⟩ <;> decide

/-- C5 [corrected]: after the up/down/page-up/page-down/to-start cursor
moves handled in normal mode on a non-empty entry list, the window
invariant `offset ≤ cursor < offset + visibleLines` holds (visibleLines is
the viewport height minus 8 reserved rows with a floor of 5).  The to-end
move is the exception: it clamps the cursor to the last entry without
touching the offset, so the invariant can fail there (see the
counterexample). -/
theorem c5_scroll_window_amended :
    ∀ (m : Model) (k : KeyEvent), m.mode = Mode.normal → m.entries ≠ [] →
      k ∈ [KeyEvent.up, KeyEvent.down, KeyEvent.pageUp, KeyEvent.pageDown,
           KeyEvent.top] →
      (step m (.key k)).1.offset ≤ (step m (.key k)).1.cursor ∧
      (step m (.key k)).1.cursor <
        (step m (.key k)).1.offset + getVisibleLines (step m (.key k)).1 :=
  fun m k hmode hne hk => step_moveKeys_window m k hmode hne hk

/-- C5 witness: the window invariant after an up-move on a concrete
three-entry model. -/
theorem c5_scroll_window_amended_witness :
    (step mThree (.key KeyEvent.up)).1.offset ≤ (step mThree (.key KeyEvent.up)).1.cursor ∧
    (step mThree (.key KeyEvent.up)).1.cursor <
      (step mThree (.key KeyEvent.up)).1.offset +
        getVisibleLines (step mThree (.key KeyEvent.up)).1 :=
  c5_scroll_window_amended mThree KeyEvent.up rfl (by decide) (by decide)

/-- C6: atomicity on failed directory load.  The failure message produced
by the load task's closure sets only `errorMsg`; the resulting model is
exactly the old model with the formatted error installed — entries, cursor
and scroll offset (and every other field) unchanged, and no further task
dispatched. -/
theorem c6_failed_load_atomic : ∀ (m : Model) (e : String),
    step m (runLoadDirTask (Except.error e)) =
      ({ m with errorMsg := "Failed to load directory: " ++ e }, []) :=
  fun _ _ => rfl

/-- C7 counterexample: the claim says the tokenizer "splits on whitespace
outside quotes", but the source splits only on the space character: on the
quote-free input "a&#9;b" (a tab between `a` and `b`) the produced single
token still contains the whitespace character, where whitespace-splitting
would have produced two tokens. -/
theorem c7_tokenizer_cex :
    parseCommandLine "a\tb" = ["a\tb"] ∧
    (∃ t ∈ parseCommandLine "a\tb", ∃ c ∈ t.data, c.isWhitespace = true) ∧
    (∀ c ∈ "a\tb".data, c ≠ '"' ∧ c ≠ '\'') := by
  refine ⟨by decide, ⟨"a\tb", by decide, '\t', by decide, by decide⟩, by decide⟩

/-- C7 [corrected]: the tokenizer splits on the space character (not all
whitespace) outside quotes, consumes quote characters, treats an
unterminated quote permissively, and yields no tokens on empty input; the
three claimed examples hold, and on every quote-free input the result is
exactly the space-split token list. -/
theorem c7_tokenizer_amended :
    parseCommandLine "" = [] ∧
    parseCommandLine "open \"my file.txt\" here" = ["open", "my file.txt", "here"] ∧
    parseCommandLine "a \"b" = ["a", "b"] ∧
    (∀ s : String, (∀ c ∈ s.data, c ≠ '"' ∧ c ≠ '\'') →
      parseCommandLine s = (splitSp s.data).map (fun cs => (⟨cs⟩ : String))) := by
  refine ⟨by decide, by decide, by decide, ?_⟩
  intro s hq
  unfold parseCommandLine
  rw [parseLoop_quoteFree s.data hq [] [] (Char.ofNat 0),
      (splitSpAux_spec s.data []).1 rfl]
  simp

/-- C7 witness: the space-splitting law applied to the concrete quote-free
input "a b". -/
theorem c7_tokenizer_amended_witness :
    parseCommandLine "a b" =
      (splitSp "a b".data).map (fun cs => (⟨cs⟩ : String)) :=
  c7_tokenizer_amended.2.2.2 "a b" (by decide)

/-- C8: size formatting.  Mount points render "<MNT>" even when they are
directories (the mount check comes first), other directories render
"<DIR>" regardless of size, a 0-byte file renders "0 B" and a 1536-byte
file renders "1.5 KB" (binary scaling by 1024 with one decimal place). -/
theorem c8_display_size :
    (∀ e : Entry, e.Mode.IsMount = true → e.DisplaySize = "<MNT>") ∧
    (∀ e : Entry, e.Mode.IsMount = false → e.IsDir = true → e.DisplaySize = "<DIR>") ∧
    (∀ e : Entry, e.Mode.IsMount = false → e.IsDir = false → e.Size = 0 →
      e.DisplaySize = "0 B") ∧
    (∀ e : Entry, e.Mode.IsMount = false → e.IsDir = false → e.Size = 1536 →
      e.DisplaySize = "1.5 KB") := by
  refine ⟨?_, ?_, ?_, ?_⟩
  · intro e h
    unfold Entry.DisplaySize
    rw [h]
    rfl
  · intro e h1 h2
    unfold Entry.DisplaySize
    rw [h1, h2]
    rfl
  · intro e h1 h2 h3
    unfold Entry.DisplaySize
    rw [h1, h2, h3]
    decide
  · intro e h1 h2 h3
    unfold Entry.DisplaySize
    rw [h1, h2, h3]
    rw [if_neg (by decide), if_neg (by decide)]
    dsimp only
    rw [show sizeScale (Int.toNat 1536 / 1024) 1024 0 = (1024, 0) from by
      rw [sizeScale]; decide]
    decide

/-- C8 witness: the four cases at concrete entries. -/
theorem c8_display_size_witness :
    eMnt.DisplaySize = "<MNT>" ∧ eDir.DisplaySize = "<DIR>" ∧
    eZero.DisplaySize = "0 B" ∧ e1536.DisplaySize = "1.5 KB" :=
  ⟨c8_display_size.1 eMnt rfl, c8_display_size.2.1 eDir rfl rfl,
   c8_display_size.2.2.1 eZero rfl rfl rfl, c8_display_size.2.2.2 e1536 rfl rfl rfl⟩

/-- C9: terminal-history bookkeeping.  From the initial model,
`commandCounter` always equals the history length and every entry's
`Number` equals its index; every single step can only preserve or extend
the history, never shrinking it or changing an existing entry's `Number`,
`Path` or `Command` (only `Output`/`Error` are filled in by the execution
task); and submitting a non-empty trimmed terminal line appends exactly
one entry tagged with the current path and numbered with the current
counter, incrementing the counter by one. -/
theorem c9_terminal_history :
    (∀ msgs : List Msg, histInvL (runModel initModel msgs)) ∧
    (∀ (m : Model) (e : Msg),
      m.terminalHistory.length ≤ (step m e).1.terminalHistory.length ∧
      ∀ i, i < m.terminalHistory.length →
        ((step m e).1.terminalHistory[i]?.map TerminalEntry.Number =
          m.terminalHistory[i]?.map TerminalEntry.Number ∧
         (step m e).1.terminalHistory[i]?.map TerminalEntry.Path =
          m.terminalHistory[i]?.map TerminalEntry.Path ∧
         (step m e).1.terminalHistory[i]?.map TerminalEntry.Command =
          m.terminalHistory[i]?.map TerminalEntry.Command)) ∧
    (∀ m : Model, m.mode = Mode.terminal → goTrimSpace m.textValue ≠ "" →
      (step m (.key .enter)).1.terminalHistory = m.terminalHistory ++
        [{ Number := m.commandCounter, Path := m.currentPath,
           Command := goTrimSpace m.textValue, Output := "", Error := "" }] ∧
      (step m (.key .enter)).1.commandCounter = m.commandCounter + 1) := by
  refine ⟨?_, ?_, ?_⟩
  · intro msgs
    refine runModel_histInv initModel msgs ⟨rfl, ?_⟩
    intro i t ht
    simp [initModel] at ht
  · exact step_hist_frame
  · intro m hmode hne
    have h := submitTerminal_append m hmode hne
    exact ⟨h.1, h.2.1⟩

/-- C9 witness: submitting "ls" in terminal mode appends exactly one entry
numbered 0 and tagged with the root path. -/
theorem c9_terminal_history_witness :
    (step mTermLs (.key .enter)).1.terminalHistory = mTermLs.terminalHistory ++
      [{ Number := mTermLs.commandCounter, Path := mTermLs.currentPath,
         Command := goTrimSpace mTermLs.textValue, Output := "", Error := "" }] ∧
    (step mTermLs (.key .enter)).1.commandCounter = mTermLs.commandCounter + 1 :=
  c9_terminal_history.2.2 mTermLs rfl (by decide)

/-- C10: preview-off frame property.  With the preview pane hidden, a
cursor-move key handled in normal mode dispatches no task at all and
leaves `previewGen`, `previewContent` and `previewError` unchanged; and
whenever any step changes the generation counter, the preview pane was
shown and the step dispatched a preview task tagged with the new
generation. -/
theorem c10_preview_off_frame :
    (∀ (m : Model) (k : KeyEvent), m.mode = Mode.normal → m.showPreview = false →
      k ∈ [KeyEvent.up, KeyEvent.down, KeyEvent.pageUp, KeyEvent.pageDown,
           KeyEvent.top, KeyEvent.bottom] →
      (step m (.key k)).1.previewGen = m.previewGen ∧
      (step m (.key k)).1.previewContent = m.previewContent ∧
      (step m (.key k)).1.previewError = m.previewError ∧
      (step m (.key k)).2 = []) ∧
    (∀ (m : Model) (e : Msg), (step m e).1.previewGen ≠ m.previewGen →
      m.showPreview = true ∧
      ((step m e).2 = [Cmd.previewEmpty ((step m e).1.previewGen)] ∨
       ∃ p, (step m e).2 = [Cmd.previewFile ((step m e).1.previewGen) p])) :=
  ⟨fun m k hmode hsp hk => step_moveKeys_preview_off m k hmode hsp hk,
   fun m e hne => step_gen_dispatch m e hne⟩

/-- C10 witness: a down-move with the preview hidden on a concrete model
changes nothing preview-related and dispatches nothing. -/
theorem c10_preview_off_frame_witness :
    (step mThreeOff (.key KeyEvent.down)).1.previewGen = mThreeOff.previewGen ∧
    (step mThreeOff (.key KeyEvent.down)).1.previewContent = mThreeOff.previewContent ∧
    (step mThreeOff (.key KeyEvent.down)).1.previewError = mThreeOff.previewError ∧
    (step mThreeOff (.key KeyEvent.down)).2 = [] :=
  c10_preview_off_frame.1 mThreeOff KeyEvent.down rfl rfl (by decide)
